import Mathlib

/-
Verification of the early-bidder analysis engine of src/monitor/helius_api.py.

Modelling conventions:
* Python floats are modelled exactly as rationals (ℚ); lamport amounts and
  raw token amounts are natural numbers, Unix timestamps are integers.
* Python dictionaries returned by the RPC transport are modelled as structures
  whose optional keys are Option-typed fields.
* Python truthiness tests on optional values (`if not tx.get('timestamp')`,
  `if not sender`, ...) are modelled by the truthyInt / truthyStr helpers:
  None, 0 and the empty string are falsy.
* A raised exception is modelled by the `Rpc.err` constructor; remote calls
  are supplied by an oracle (`LedgerOracle`) giving the response of each call
  in issue order.
* Besides the credit total computed exactly as the source computes it, every
  transport-touching definition also returns a ghost `issued` component: the
  literal sum of the declared costs of the calls actually issued (1 unit per
  metadata lookup, 1 per signature-list call, 1 per transaction-detail fetch,
  100 per efficient batch call), whether or not the call succeeded.  This is
  the specification-side measuring stick, never used by the modelled code.
-/

namespace Solscan

set_option maxRecDepth 4000

attribute [local semireducible] Rat.mul Rat.add Rat.sub Rat.inv Rat.ofScientific

abbrev Metadata := String

/-- One native-asset (SOL) balance delta, as produced by the normalizer. -/
structure NativeTransfer where
  fromUserAccount : Option String
  toUserAccount : Option String
  amount : Nat
deriving DecidableEq

/-- One mint-asset (token) balance delta, as produced by the normalizer. -/
structure TokenTransfer where
  mint : Option String
  toUserAccount : Option String
  fromUserAccount : Option String
  tokenAmount : ℚ
deriving DecidableEq

/-- The normalized transaction record built by `_parse_rpc_transaction`
(the constant `type: 'UNKNOWN'` field is omitted as it is never read). -/
structure ParsedTx where
  signature : Option String
  timestamp : Option Int
  tokenTransfers : List TokenTransfer
  nativeTransfers : List NativeTransfer
deriving DecidableEq

/-- The `uiTokenAmount` sub-record of a token balance entry.  `amount` is the
raw integer amount (the source reads it as a numeric string and converts with
`float`), `uiAmount` may be absent (None). -/
structure UiTokenAmount where
  uiAmount : Option ℚ
  amount : Nat
  decimals : Nat
deriving DecidableEq

/-- One entry of `preTokenBalances` / `postTokenBalances`. -/
structure TokenBalance where
  accountIndex : Nat
  uiTokenAmount : UiTokenAmount
  mint : Option String
deriving DecidableEq

/-- A raw transaction payload.  The source reads `tx_data['blockTime']`,
`tx_data['transaction']['message']['accountKeys']` (already reduced here to
the pubkey strings) and the four balance lists of `tx_data['meta']`; a list
is `none` when the corresponding key is absent from `meta`. -/
structure RawTx where
  signature : Option String
  blockTime : Option Int
  accountKeys : List String
  preTokenBalances : Option (List TokenBalance)
  postTokenBalances : Option (List TokenBalance)
  preBalances : Option (List Int)
  postBalances : Option (List Int)
deriving DecidableEq

/-- Python truthiness of an optional integer: None and 0 are falsy. -/
def truthyInt : Option Int → Bool
  | some t => t != 0
  | none => false

/-- Python truthiness of an optional string: None and "" are falsy. -/
def truthyStr : Option String → Bool
  | some s => !s.isEmpty
  | none => false

/-- The base58 alphabet used by the `base58` package (Bitcoin alphabet). -/
def b58Alphabet : List Char :=
  "123456789ABCDEFGHJKLMNPQRSTUVWXYZabcdefghijkmnopqrstuvwxyz".toList

/-- Big-endian byte expansion of a natural number (no leading zero byte);
fuel-based so that it reduces definitionally. -/
def natToBytesGo : Nat → Nat → List Nat
  | 0, _ => []
  | fuel + 1, n => if n = 0 then [] else natToBytesGo fuel (n / 256) ++ [n % 256]

def natToBytes (n : Nat) : List Nat :=
  natToBytesGo n n

/-- Model of `base58.b58decode`: fails (raises, here `none`) on any character
outside the alphabet; every leading '1' contributes one zero byte. -/
def b58decode (s : String) : Option (List Nat) :=
  let cs := s.toList
  if cs.all (fun c => (b58Alphabet.indexOf? c).isSome) then
    let n := cs.foldl (fun acc c => acc * 58 + ((b58Alphabet.indexOf? c).getD 0)) 0
    let zeros := (cs.takeWhile (fun c => c == '1')).length
    some (List.replicate zeros 0 ++ natToBytes n)
  else none

/-- Model of `HeliusAPI.is_wallet_on_curve`: base58-decode the address; any
exception yields False; otherwise return whether the decoding is exactly 32
bytes long.  No elliptic-curve point test is performed. -/
def is_wallet_on_curve (wallet_address : String) : Bool :=
  match b58decode wallet_address with
  | some decoded => decoded.length == 32
  | none => false

/-! ## Transaction Normalizer (`_parse_rpc_transaction`) -/

/-- The amount the source computes for one token-balance entry: the
`uiAmount` field if present, otherwise the raw amount divided by
`10 ** decimals` (raw amount unchanged when `decimals == 0`).  A missing
entry (`pre_balances.get(account_index, {})`) yields 0. -/
def tokenAmountOf : Option TokenBalance → ℚ
  | none => 0
  | some b =>
    match b.uiTokenAmount.uiAmount with
    | some q => q
    | none =>
      if b.uiTokenAmount.decimals > 0 then
        (b.uiTokenAmount.amount : ℚ) / (10 : ℚ) ^ b.uiTokenAmount.decimals
      else (b.uiTokenAmount.amount : ℚ)

/-- One step of building the Python dict `{b['accountIndex']: b for b in l}`:
a repeated key overwrites the stored value but keeps its original position. -/
def dictUpsert (m : List (Nat × TokenBalance)) (b : TokenBalance) :
    List (Nat × TokenBalance) :=
  if m.any (fun p => p.1 == b.accountIndex) then
    m.map (fun p => if p.1 == b.accountIndex then (p.1, b) else p)
  else m ++ [(b.accountIndex, b)]

/-- The Python dict comprehension over a token-balance list. -/
def balanceDict (l : List TokenBalance) : List (Nat × TokenBalance) :=
  l.foldl dictUpsert []

/-- Dict lookup (`.get(account_index)`). -/
def dictGet (m : List (Nat × TokenBalance)) (i : Nat) : Option TokenBalance :=
  match m.find? (fun p => p.1 == i) with
  | some p => some p.2
  | none => none

/-- The token-transfer loop of `_parse_rpc_transaction`: iterate the entries
of the post-balance dict; a transfer is appended when the computed pre and
post amounts differ and the account index is within `accountKeys`. -/
def mkTokenTransfers (accounts : List String) (pre post : List TokenBalance) :
    List TokenTransfer :=
  (balanceDict post).foldl
    (fun acc kv =>
      let pre_amount := tokenAmountOf (dictGet (balanceDict pre) kv.1)
      let post_amount := tokenAmountOf (some kv.2)
      if pre_amount ≠ post_amount then
        if kv.1 < accounts.length then
          acc ++ [{ mint := kv.2.mint,
                    toUserAccount :=
                      if post_amount > pre_amount then some (accounts.getD kv.1 "") else none,
                    fromUserAccount :=
                      if post_amount < pre_amount then some (accounts.getD kv.1 "") else none,
                    tokenAmount := |post_amount - pre_amount| }]
        else acc
      else acc)
    []

/-- The native-transfer loop of `_parse_rpc_transaction`: diff
`preBalances` / `postBalances` positionally (zip stops at the shorter list). -/
def mkNativeTransfers (accounts : List String) (pre post : List Int) :
    List NativeTransfer :=
  ((pre.zip post).enum).foldl
    (fun acc ip =>
      if ip.2.1 ≠ ip.2.2 then
        if ip.1 < accounts.length then
          acc ++ [{ fromUserAccount :=
                      if ip.2.2 < ip.2.1 then some (accounts.getD ip.1 "") else none,
                    toUserAccount :=
                      if ip.2.2 > ip.2.1 then some (accounts.getD ip.1 "") else none,
                    amount := (ip.2.2 - ip.2.1).natAbs }]
        else acc
      else acc)
    []

/-- Model of `_parse_rpc_transaction`.  The token metadata scanned from the
instruction list is computed and discarded by the source, so it is omitted;
the structurally-total model never hits the `except` branch (any Python field
access failure corresponds to an input outside this data model). -/
def parse_rpc_transaction (tx : RawTx) (signature : Option String) : Option ParsedTx :=
  let token_transfers :=
    match tx.preTokenBalances, tx.postTokenBalances with
    | some pre, some post => mkTokenTransfers tx.accountKeys pre post
    | _, _ => []
  let native_transfers :=
    match tx.preBalances, tx.postBalances with
    | some pre, some post => mkNativeTransfers tx.accountKeys pre post
    | _, _ => []
  some { signature := signature, timestamp := tx.blockTime,
         tokenTransfers := token_transfers, nativeTransfers := native_transfers }

/-! ## Buyer Extractor (`_extract_buy_info`) -/

/-- One step of the native-transfer scan of `_extract_buy_info`: skip a
falsy sender, keep the running (largest SOL payment, its sender) pair,
replacing it when the amount strictly exceeds both the 100000-lamport dust
threshold and the running largest. -/
def scanStep (acc : Nat × Option String) (native : NativeTransfer) :
    Nat × Option String :=
  match native.fromUserAccount with
  | none => acc
  | some sender =>
    if sender.isEmpty then acc
    else if native.amount > 100000 ∧ native.amount > acc.1 then
      (native.amount, some sender)
    else acc

/-- The native-transfer scan of `_extract_buy_info`, starting from
`largest_sol_payment = 0`, `buyer_wallet = None`. -/
def scanNativeForBuyer (nts : List NativeTransfer) : Nat × Option String :=
  nts.foldl scanStep (0, none)

/-- The token-transfer loop of `_extract_buy_info`, searching for a transfer
of the target mint with a truthy recipient; on such a transfer the buyer is
the largest native sender (scan over the whole transaction). -/
def extractGo (nts : List NativeTransfer) (mint_address : String) :
    List TokenTransfer → Option (String × ℚ)
  | [] => none
  | transfer :: rest =>
    if transfer.mint == some mint_address then
      if truthyStr transfer.toUserAccount then
        let s := scanNativeForBuyer nts
        match s.2 with
        | some buyer_wallet =>
          if ¬buyer_wallet.isEmpty ∧ s.1 > 0 then
            some (buyer_wallet, ((s.1 : ℚ) / 1000000000) * 200)
          else extractGo nts mint_address rest
        | none => extractGo nts mint_address rest
      else extractGo nts mint_address rest
    else extractGo nts mint_address rest

/-- Model of `_extract_buy_info`: returns the buyer wallet and the USD value
(SOL amount times the fixed 200 USD/SOL constant), or `none`. -/
def extract_buy_info (tx : ParsedTx) (mint_address : String) : Option (String × ℚ) :=
  extractGo tx.nativeTransfers mint_address tx.tokenTransfers

/-! ## Ledger Client transport -/

/-- Outcome of one remote call: a value, or a raised exception. -/
inductive Rpc (α : Type) where
  | ok : α → Rpc α
  | err : Rpc α
deriving DecidableEq

/-- One `getTransactionsForAddress` response: the `data` list and the
optional `paginationToken`.  A falsy (empty) response is modelled by the
oracle answering `.ok none`. -/
structure BatchResult where
  data : List RawTx
  paginationToken : Option String
deriving DecidableEq

/-- One entry of a `getSignaturesForAddress` response. -/
structure SigInfo where
  signature : String
  blockTime : Option Int
deriving DecidableEq

/-- The remote transport, answering each call of a run in issue order:
`metaPrimary`/`metaSecondary` are the two metadata endpoints, `batchCall n`
is the n-th `getTransactionsForAddress` call, `sigCall n` the n-th
`getSignaturesForAddress` call, `detailCall n` the n-th `getTransaction`
call. -/
structure LedgerOracle where
  metaPrimary : Rpc (Option Metadata)
  metaSecondary : Rpc (Option Metadata)
  batchCall : Nat → Rpc (Option BatchResult)
  sigCall : Nat → Rpc (List SigInfo)
  detailCall : Nat → Rpc (Option RawTx)

/-- Model of `get_token_metadata`: try the token-metadata endpoint, fall back
to the DAS `getAsset` endpoint on exception or falsy result; both failing is
non-fatal.  First component is the source's `(metadata, credits)` pair;
second is the issued cost: 1 if only the primary endpoint was called, 2 if
the secondary was also issued. -/
def get_token_metadata (o : LedgerOracle) : (Option Metadata × Nat) × Nat :=
  match o.metaPrimary with
  | .ok (some m) => ((some m, 1), 1)
  | _ =>
    match o.metaSecondary with
    | .ok (some m) => ((some m, 1), 2)
    | _ => ((none, 0), 2)

/-- Model of `get_token_creation_time`: disabled in the source, always
`(None, 0)` with no call issued. -/
def get_token_creation_time : Option Int × Nat := (none, 0)

/-! ## Efficient pagination strategy (`_get_earliest_transactions_new`) -/

/-- The `while remaining_limit > 0` loop of `_get_earliest_transactions_new`.
Arguments: fuel (the loop runs at most 500 times since each continuing
iteration lowers `remaining` by at least `batch_limit ≥ 1`), remaining limit,
next call index, successful call count, accumulated parsed transactions,
issued cost so far.  Returns the body's `(all_transactions, api_calls * 100)`
or `.err` for an uncaught exception, paired with the issued cost. -/
def newFetchLoop (o : LedgerOracle) :
    Nat → Int → Nat → Nat → List ParsedTx → Nat → Rpc (List ParsedTx × Nat) × Nat
  | 0, _, _, apiCalls, acc, issued => (.ok (acc, apiCalls * 100), issued)
  | fuel + 1, remaining, callIdx, apiCalls, acc, issued =>
    if remaining > 0 then
      let batchLimit := min remaining 100
      match o.batchCall callIdx with
      | .err => (.err, issued + 100)
      | .ok res =>
        match res with
        | none => (.ok (acc, (apiCalls + 1) * 100), issued + 100)
        | some batch =>
          let parsed := batch.data.filterMap (fun t => parse_rpc_transaction t t.signature)
          let acc2 := acc ++ parsed
          let remaining2 := remaining - batch.data.length
          if batch.paginationToken = none ∨ batch.data.length = 0 then
            (.ok (acc2, (apiCalls + 1) * 100), issued + 100)
          else if (batch.data.length : Int) < batchLimit then
            (.ok (acc2, (apiCalls + 1) * 100), issued + 100)
          else
            newFetchLoop o fuel remaining2 (callIdx + 1) (apiCalls + 1) acc2 (issued + 100)
    else (.ok (acc, apiCalls * 100), issued)

/-- The body of `_get_earliest_transactions_new` up to (not including) its
`except` clause, at the initial state `remaining_limit = min(limit, 500)`. -/
def newRun (o : LedgerOracle) (limit : Nat) : Rpc (List ParsedTx × Nat) × Nat :=
  newFetchLoop o 501 (min (limit : Int) 500) 0 0 [] 0

/-! ## Fallback pagination strategy (`_get_earliest_transactions_old`) -/

/-- The per-batch signature filter used when a token creation time is known:
keep signatures with a truthy blockTime at or after the creation time; on the
first truthy blockTime strictly before it, stop (dropping the rest of the
batch) and signal that pagination must end. -/
def sigFilterBatch (tct : Int) : List SigInfo → List SigInfo × Bool
  | [] => ([], false)
  | sig :: rest =>
    match sig.blockTime with
    | some t =>
      if t ≠ 0 ∧ t ≥ tct then
        let r := sigFilterBatch tct rest
        (sig :: r.1, r.2)
      else if t ≠ 0 ∧ t < tct then ([], true)
      else sigFilterBatch tct rest
    | none => sigFilterBatch tct rest

/-- The backward signature-pagination loop of
`_get_earliest_transactions_old`.  `beforeSet` records whether the `before`
cursor has been set (its value only shapes the request payload).  Each
continuing iteration either fetched a full batch of 1000 (no creation-time
filter) or grew `totalFetched`, and pagination stops at the 50000-signature
safety cap, so 50100 units of fuel are never exhausted.  Returns the source's
`(all_signatures, signature_api_calls)` or `.err`, paired with issued cost. -/
def oldSigLoop (o : LedgerOracle) (tct : Option Int) :
    Nat → Nat → Bool → List SigInfo → Nat → Nat → Nat → Rpc (List SigInfo × Nat) × Nat
  | 0, _, _, allSigs, _, sigCalls, issued => (.ok (allSigs, sigCalls), issued)
  | fuel + 1, callIdx, beforeSet, allSigs, totalFetched, sigCalls, issued =>
    match o.sigCall callIdx with
    | .err => (.err, issued + 1)
    | .ok signatures =>
      if signatures.isEmpty then (.ok (allSigs, sigCalls + 1), issued + 1)
      else
        if truthyInt tct then
          let fr := sigFilterBatch (tct.getD 0) signatures
          let allSigs2 := allSigs ++ fr.1
          let total2 := totalFetched + fr.1.length
          if fr.2 ∨ (fr.1.isEmpty ∧ beforeSet) then
            (.ok (allSigs2, sigCalls + 1), issued + 1)
          else if signatures.length < 1000 then
            (.ok (allSigs2, sigCalls + 1), issued + 1)
          else if total2 ≥ 50000 then
            (.ok (allSigs2, sigCalls + 1), issued + 1)
          else
            oldSigLoop o tct fuel (callIdx + 1) true allSigs2 total2 (sigCalls + 1) (issued + 1)
        else
          let allSigs2 := allSigs ++ signatures
          let total2 := totalFetched + signatures.length
          if signatures.length < 1000 then
            (.ok (allSigs2, sigCalls + 1), issued + 1)
          else if total2 ≥ 50000 then
            (.ok (allSigs2, sigCalls + 1), issued + 1)
          else
            oldSigLoop o tct fuel (callIdx + 1) true allSigs2 total2 (sigCalls + 1) (issued + 1)

/-- The per-signature detail-fetch loop of `_get_earliest_transactions_old`:
an exception on one `getTransaction` call is caught and skips that signature
without counting it; a successful call is counted even when the payload is
falsy.  Returns (parsed transactions, transaction_api_calls, issued cost). -/
def oldDetailLoop (o : LedgerOracle) :
    List SigInfo → Nat → List ParsedTx → Nat → Nat → List ParsedTx × Nat × Nat
  | [], _, acc, txCalls, issued => (acc, txCalls, issued)
  | sig :: rest, idx, acc, txCalls, issued =>
    match o.detailCall idx with
    | .err => oldDetailLoop o rest (idx + 1) acc txCalls (issued + 1)
    | .ok none => oldDetailLoop o rest (idx + 1) acc (txCalls + 1) (issued + 1)
    | .ok (some tx) =>
      let acc2 := match parse_rpc_transaction tx (some sig.signature) with
        | some p => acc ++ [p]
        | none => acc
      oldDetailLoop o rest (idx + 1) acc2 (txCalls + 1) (issued + 1)

/-- Model of `_get_earliest_transactions_old`: paginate signatures backwards,
reverse to oldest-first, truncate to `limit`, fetch details individually; an
uncaught exception (only possible in the signature phase) makes the whole
method return `([], 0)`.  First component is the source's return value,
second the issued cost. -/
def get_earliest_transactions_old (o : LedgerOracle) (limit : Nat) (tct : Option Int) :
    (List ParsedTx × Nat) × Nat :=
  match oldSigLoop o tct 50100 0 false [] 0 0 0 with
  | (.err, issued) => (([], 0), issued)
  | (.ok (allSigs, sigCalls), issued) =>
    let earliest := allSigs.reverse.take limit
    let r := oldDetailLoop o earliest 0 [] 0 issued
    ((r.1, sigCalls + r.2.1), r.2.2)

/-- Model of `_get_earliest_transactions_new`: run the efficient strategy;
on any exception fall back to the old strategy from scratch.  The token
creation time only shapes the request payload of the efficient strategy, so
it is passed through to the fallback untouched.  First component is the
source's return value, second the issued cost of everything issued. -/
def get_earliest_transactions_new (o : LedgerOracle) (limit : Nat) (tct : Option Int) :
    (List ParsedTx × Nat) × Nat :=
  match newRun o limit with
  | (.ok r, issued) => (r, issued)
  | (.err, issued) =>
    let old := get_earliest_transactions_old o limit tct
    (old.1, issued + old.2)

/-- Model of `get_parsed_transactions` on the `get_earliest=True` path taken
by the orchestrator (its own `except` clause is unreachable on this path
because both strategies handle their exceptions internally). -/
def get_parsed_transactions_earliest (o : LedgerOracle) (limit : Nat) (tct : Option Int) :
    (List ParsedTx × Nat) × Nat :=
  get_earliest_transactions_new o limit tct

/-! ## Aggregator and orchestrator (`analyze_token_early_bidders`) -/

/-- The running per-wallet aggregate held in the `buyers` dict. -/
structure BuyerAcc where
  wallet_address : String
  first_buy_time : Int
  total_usd : ℚ
  transaction_count : Nat
deriving DecidableEq

/-- A finalized entry of the returned `early_bidders` list. -/
structure BidderOut where
  wallet_address : String
  first_buy_time : Int
  total_usd : ℚ
  transaction_count : Nat
  average_buy_usd : ℚ
deriving DecidableEq

/-- The result of `analyze_token_early_bidders`.  The success dictionary and
the two error dictionaries are merged into one record: fields absent from an
error dictionary are `none`/empty, and `error` is `none` on success. -/
structure AnalysisResult where
  token_address : String
  token_info : Option Metadata
  first_transaction_time : Option Int
  analysis_window_end : Option Int
  early_bidders : List BidderOut
  total_unique_buyers : Nat
  total_transactions_analyzed : Nat
  api_credits_used : Nat
  error : Option String
deriving DecidableEq

/-- The in-place update of an existing `buyers[wallet]` dict entry: add the
USD amount, bump the count, keep the earliest buy time. -/
def updateBuyer (b : BuyerAcc) (ts : Int) (usd : ℚ) : BuyerAcc :=
  { b with total_usd := b.total_usd + usd,
           transaction_count := b.transaction_count + 1,
           first_buy_time := if ts < b.first_buy_time then ts else b.first_buy_time }

/-- Dict upsert on the `buyers` map: update the entry of the wallet if
present (a Python dict holds one entry per key), otherwise append a fresh
entry, which the source immediately updates from its zero state to
`(ts, usd, 1)`. -/
def upsertBuyer : List BuyerAcc → String → Int → ℚ → List BuyerAcc
  | [], w, ts, usd =>
    [{ wallet_address := w, first_buy_time := ts, total_usd := usd, transaction_count := 1 }]
  | b :: rest, w, ts, usd =>
    if b.wallet_address == w then updateBuyer b ts usd :: rest
    else b :: upsertBuyer rest w ts usd

/-- The body of the main `for tx in transactions` loop: skip falsy
timestamps, skip transactions after the window end, run the extractor, skip
falsy buyer/amount, skip off-curve wallets, apply the per-transaction minimum
USD threshold, then upsert. -/
def processTx (mint : String) (minUsd : ℚ) (windowEnd : Int)
    (buyers : List BuyerAcc) (tx : ParsedTx) : List BuyerAcc :=
  if truthyInt tx.timestamp = false then buyers
  else
    let tx_time := tx.timestamp.getD 0
    if tx_time > windowEnd then buyers
    else
      match extract_buy_info tx mint with
      | none => buyers
      | some (w, usd) =>
        if w.isEmpty ∨ usd = 0 then buyers
        else if is_wallet_on_curve w = false then buyers
        else if minUsd ≤ usd then upsertBuyer buyers w tx_time usd
        else buyers

/-- Finalization of one aggregate: `average_buy_usd = total_usd / count`. -/
def finalizeBidder (b : BuyerAcc) : BidderOut :=
  { wallet_address := b.wallet_address, first_buy_time := b.first_buy_time,
    total_usd := b.total_usd, transaction_count := b.transaction_count,
    average_buy_usd := b.total_usd / (b.transaction_count : ℚ) }

/-- Stable insertion by `first_buy_time`: the new element goes after every
element with a key less than or equal to its own, matching the stable
ascending sort of `early_bidders.sort(key=lambda x: x['first_buy_time'])`. -/
def insertByFirstBuy (b : BidderOut) : List BidderOut → List BidderOut
  | [] => [b]
  | c :: rest =>
    if c.first_buy_time ≤ b.first_buy_time then c :: insertByFirstBuy b rest
    else b :: c :: rest

/-- Stable ascending sort of the bidder list by `first_buy_time`. -/
def sortBidders (l : List BidderOut) : List BidderOut :=
  l.foldl (fun acc b => insertByFirstBuy b acc) []

/-- Everything `analyze_token_early_bidders` does after the transaction
fetch: the two `done-with-error` short circuits (which still report the
credits consumed: metadata + creation-time lookup (always 0) + transaction
fetch), window computation, the aggregation loop, finalization, sort and
result assembly. -/
def finishAnalysis (mint : String) (token_info : Option Metadata) (metaCredits : Nat)
    (min_usd : ℚ) (time_window_hours : Int) (transactions : List ParsedTx)
    (txCredits : Nat) : AnalysisResult :=
  if transactions.isEmpty then
    { token_address := mint, token_info := token_info,
      first_transaction_time := none, analysis_window_end := none,
      early_bidders := [], total_unique_buyers := 0, total_transactions_analyzed := 0,
      api_credits_used := metaCredits + 0 + txCredits,
      error := some "No transactions found" }
  else
    match transactions.find? (fun tx => truthyInt tx.timestamp) with
    | none =>
      { token_address := mint, token_info := token_info,
        first_transaction_time := none, analysis_window_end := none,
        early_bidders := [], total_unique_buyers := 0, total_transactions_analyzed := 0,
        api_credits_used := metaCredits + 0 + txCredits,
        error := some "Could not determine first transaction time" }
    | some ftx =>
      let first_tx_time := ftx.timestamp.getD 0
      let window_end := first_tx_time + time_window_hours * 3600
      let buyers := transactions.foldl (processTx mint min_usd window_end) []
      let early_bidders := sortBidders (buyers.map finalizeBidder)
      { token_address := mint, token_info := token_info,
        first_transaction_time := some first_tx_time,
        analysis_window_end := some window_end,
        early_bidders := early_bidders,
        total_unique_buyers := early_bidders.length,
        total_transactions_analyzed := transactions.length,
        api_credits_used := metaCredits + 0 + txCredits,
        error := none }

/-- Model of `analyze_token_early_bidders`: metadata lookup, (disabled)
creation-time lookup, earliest-transaction fetch, then `finishAnalysis`.
The creation time is always `none`, so the fetch is always invoked without a
creation-time filter.  First component is the returned result; second is the
issued cost of every remote call of the run. -/
def analyze_token_early_bidders (o : LedgerOracle) (mint : String) (min_usd : ℚ)
    (time_window_hours : Int) (max_transactions : Nat) : AnalysisResult × Nat :=
  let meta := get_token_metadata o
  let fetched := get_parsed_transactions_earliest o max_transactions get_token_creation_time.1
  (finishAnalysis mint meta.1.1 meta.1.2 min_usd
     time_window_hours fetched.1.1 fetched.1.2,
   meta.2 + fetched.2)

/-- Modelled from the spec: the public entry point variant taking
`maxWalletsToReturn` (the backend analyzer invoked by
`app/routers/analysis.py` with `max_wallets_to_store`, whose module is not
part of the repository sources available here).  Per §4.5 of the spec, after
sorting ascending by `firstBuyTime` the buyer list is truncated to the
caller's requested max count, order preserved, dropping the latest
earliest-buyers. -/
def analyze_with_max_wallets (o : LedgerOracle) (mint : String) (min_usd : ℚ)
    (time_window_hours : Int) (max_transactions : Nat) (maxWalletsToReturn : Nat) :
    AnalysisResult :=
  let r := (analyze_token_early_bidders o mint min_usd time_window_hours max_transactions).1
  { r with early_bidders := r.early_bidders.take maxWalletsToReturn }

/-! ## Claim-side definitions -/

/-- The token balance a balance list assigns to an account index, in the
sense of the spec's diffing description: the amount of the entry for that
index (Python-dict semantics, last entry wins), or 0 when the index has no
entry in the list. -/
def listedTokenAmount (l : List TokenBalance) (i : Nat) : ℚ :=
  tokenAmountOf (dictGet (balanceDict l) i)

/-- The transfer the normalizer actually records for one entry of the
post-balance dict: one transfer when the computed pre amount differs from
the post amount and the account index is within the account-key list,
nothing otherwise. -/
def tokenTransferSpec (accounts : List String) (pre : List TokenBalance)
    (kv : Nat × TokenBalance) : Option TokenTransfer :=
  let pre_amount := tokenAmountOf (dictGet (balanceDict pre) kv.1)
  let post_amount := tokenAmountOf (some kv.2)
  if pre_amount ≠ post_amount ∧ kv.1 < accounts.length then
    some { mint := kv.2.mint,
           toUserAccount :=
             if post_amount > pre_amount then some (accounts.getD kv.1 "") else none,
           fromUserAccount :=
             if post_amount < pre_amount then some (accounts.getD kv.1 "") else none,
           tokenAmount := |post_amount - pre_amount| }
  else none

/-- The buy event the aggregation loop sees for one transaction, before the
on-curve and minimum-USD policy gates: `none` when the timestamp is falsy,
the transaction is after the window end, the extractor finds nothing, or the
extracted wallet/amount is falsy; otherwise the wallet, USD amount and
timestamp. -/
def buyEventOf (mint : String) (windowEnd : Int) (tx : ParsedTx) :
    Option (String × ℚ × Int) :=
  if truthyInt tx.timestamp = false then none
  else
    let tx_time := tx.timestamp.getD 0
    if tx_time > windowEnd then none
    else
      match extract_buy_info tx mint with
      | none => none
      | some (w, usd) =>
        if w.isEmpty ∨ usd = 0 then none else some (w, usd, tx_time)

/-- One aggregation step at the event level: gate on the on-curve check and
the per-transaction threshold, then upsert. -/
def stepEvent (minUsd : ℚ) (buyers : List BuyerAcc) (e : String × ℚ × Int) :
    List BuyerAcc :=
  if is_wallet_on_curve e.1 = true ∧ minUsd ≤ e.2.1 then
    upsertBuyer buyers e.1 e.2.2 e.2.1
  else buyers

/-! ## Concrete inputs for witnesses and counterexamples -/

/-- A 32-character address of 32 ones: decodes to 32 zero bytes. -/
def addrOnes : String := "11111111111111111111111111111111"

/-- A 32-character address decoding to 31 zero bytes and a final 1. -/
def buyerX : String := "11111111111111111111111111111112"

/-- A 32-character address decoding to 31 zero bytes and a final 2. -/
def buyerY : String := "11111111111111111111111111111113"

/-- A post-balance entry assigning `amt` ui-units of "MINT" to account
index `i`. -/
def mintBalAt (i : Nat) (amt : ℚ) : TokenBalance :=
  { accountIndex := i,
    uiTokenAmount := { uiAmount := some amt, amount := 0, decimals := 0 },
    mint := some "MINT" }

/-- A raw transaction in which `buyer` pays `lamports` lamports and `recip`
receives `amt` units of the token "MINT". -/
def mkBuyRaw (buyer recip : String) (lamports : Nat) (amt : ℚ) (ts : Int)
    (sig : String) : RawTx :=
  { signature := some sig, blockTime := some ts,
    accountKeys := [buyer, recip],
    preTokenBalances := some [],
    postTokenBalances := some [mintBalAt 1 amt],
    preBalances := some [(lamports : Int), 0],
    postBalances := some [0, (lamports : Int)] }

/-- An oracle for a run where every issued call succeeds: the primary
metadata endpoint answers, and the single efficient batch call returns one
buy transaction (2 SOL = 400 USD from `addrOnes`) with no pagination token. -/
def okOracle : LedgerOracle :=
  { metaPrimary := .ok (some "M"), metaSecondary := .ok none,
    batchCall := fun n =>
      if n = 0 then
        .ok (some { data := [mkBuyRaw addrOnes "RecvB" 2000000000 5 1000 "SIG1"],
                    paginationToken := none })
      else .err,
    sigCall := fun _ => .err, detailCall := fun _ => .err }

/-- An oracle for a run where the primary metadata endpoint returns a falsy
payload (so the secondary is also issued), the first efficient batch call
raises, and the fallback's first signature call returns an empty list. -/
def cxOracle : LedgerOracle :=
  { metaPrimary := .ok none, metaSecondary := .ok (some "M"),
    batchCall := fun _ => .err,
    sigCall := fun n => if n = 0 then .ok [] else .err,
    detailCall := fun _ => .err }

/-- An oracle whose single efficient batch call returns a falsy payload:
zero transactions are retrieved. -/
def emptyOracle : LedgerOracle :=
  { metaPrimary := .ok (some "M"), metaSecondary := .ok none,
    batchCall := fun n => if n = 0 then .ok none else .err,
    sigCall := fun _ => .err, detailCall := fun _ => .err }

/-- An oracle whose single efficient batch call returns one transaction
without a blockTime: no usable timestamp exists in the stream. -/
def noTsOracle : LedgerOracle :=
  { metaPrimary := .ok (some "M"), metaSecondary := .ok none,
    batchCall := fun n =>
      if n = 0 then
        .ok (some { data := [{ signature := some "S0", blockTime := none,
                               accountKeys := [], preTokenBalances := none,
                               postTokenBalances := none, preBalances := none,
                               postBalances := none }],
                    paginationToken := none })
      else .err,
    sigCall := fun _ => .err, detailCall := fun _ => .err }

/-- An oracle delivering the spec's thresholding example: wallet `buyerX`
buys once for 60 USD, wallet `buyerY` buys twice for 30 USD each. -/
def thresholdOracle : LedgerOracle :=
  { metaPrimary := .ok (some "M"), metaSecondary := .ok none,
    batchCall := fun n =>
      if n = 0 then
        .ok (some { data := [mkBuyRaw buyerX "RX" 300000000 5 1000 "SX",
                             mkBuyRaw buyerY "RY" 150000000 5 1100 "SY1",
                             mkBuyRaw buyerY "RY" 150000000 5 1200 "SY2"],
                    paginationToken := none })
      else .err,
    sigCall := fun _ => .err, detailCall := fun _ => .err }

/-- The spec's largest-sender example: a token transfer of the target mint
to wallet W, and native transfers out of A (50000 units) and B (2000000
units). -/
def largestSenderTx : ParsedTx :=
  { signature := some "T", timestamp := some 1,
    tokenTransfers := [{ mint := some "MINT", toUserAccount := some "W",
                         fromUserAccount := none, tokenAmount := 1 }],
    nativeTransfers := [{ fromUserAccount := some "A", toUserAccount := none,
                          amount := 50000 },
                        { fromUserAccount := some "B", toUserAccount := none,
                          amount := 2000000 }] }

/-- The spec's dust example: no native transfer exceeds the 100000-unit dust
threshold. -/
def dustTx : ParsedTx :=
  { signature := some "T2", timestamp := some 1,
    tokenTransfers := [{ mint := some "MINT", toUserAccount := some "W",
                         fromUserAccount := none, tokenAmount := 1 }],
    nativeTransfers := [{ fromUserAccount := some "A", toUserAccount := none,
                          amount := 50000 },
                        { fromUserAccount := some "B", toUserAccount := none,
                          amount := 100000 }] }

/-- A raw transaction whose token-balance change appears only in the pre
list: account index 0 holds 5 units before and has no entry after. -/
def preOnlyRaw : RawTx :=
  { signature := some "S9", blockTime := some 5, accountKeys := ["A"],
    preTokenBalances := some [mintBalAt 0 5],
    postTokenBalances := some [],
    preBalances := some [], postBalances := some [] }

/-! ## Helper lemmas -/

lemma finishAnalysis_credits (mint : String) (ti : Option Metadata) (mc : Nat)
    (mu : ℚ) (h : Int) (txs : List ParsedTx) (tc : Nat) :
    (finishAnalysis mint ti mc mu h txs tc).api_credits_used = mc + 0 + tc := by
  unfold finishAnalysis
  split
  · rfl
  · split <;> rfl

lemma foldl_append_toList {α β : Type} (f : α → Option β) :
    ∀ (l : List α) (init : List β),
      l.foldl (fun acc x => acc ++ (f x).toList) init = init ++ l.filterMap f
  | [], init => by simp
  | x :: xs, init => by
    simp only [List.foldl_cons, List.filterMap_cons]
    rw [foldl_append_toList f xs]
    cases f x <;> simp

lemma newFetchLoop_ok_credits (o : LedgerOracle) :
    ∀ (fuel : Nat) (rem : Int) (callIdx apiCalls : Nat) (acc : List ParsedTx)
      (issued : Nat) (r : List ParsedTx × Nat),
      issued = apiCalls * 100 →
      (newFetchLoop o fuel rem callIdx apiCalls acc issued).1 = .ok r →
      (newFetchLoop o fuel rem callIdx apiCalls acc issued).2 = r.2 := by
  intro fuel
  induction fuel with
  | zero =>
    intro rem callIdx apiCalls acc issued r hiss
    rw [newFetchLoop]
    dsimp only
    intro hok
    cases hok
    simpa using hiss
  | succ fuel ih =>
    intro rem callIdx apiCalls acc issued r hiss
    rw [newFetchLoop]
    by_cases hrem : rem > 0
    · rw [if_pos hrem]
      cases o.batchCall callIdx with
      | err =>
        intro hok
        simp at hok
      | ok res =>
        cases res with
        | none =>
          dsimp only
          intro hok
          cases hok
          simp [hiss, Nat.add_mul]
        | some batch =>
          dsimp only
          split
          · intro hok
            cases hok
            simp [hiss, Nat.add_mul]
          · split
            · intro hok
              cases hok
              simp [hiss, Nat.add_mul]
            · intro hok
              exact ih _ _ _ _ _ r (by simp [hiss, Nat.add_mul]) hok
    · rw [if_neg hrem]
      dsimp only
      intro hok
      cases hok
      simpa using hiss

lemma foldl_congr_fun {α β : Type} (f g : β → α → β) (h : ∀ b a, f b a = g b a) :
    ∀ (l : List α) (init : β), l.foldl f init = l.foldl g init
  | [], _ => rfl
  | x :: xs, init => by
    simp only [List.foldl_cons, h init x]
    exact foldl_congr_fun f g h xs (g init x)

lemma mkTokenTransfers_eq_filterMap (accounts : List String)
    (pre post : List TokenBalance) :
    mkTokenTransfers accounts pre post =
      (balanceDict post).filterMap (tokenTransferSpec accounts pre) := by
  unfold mkTokenTransfers
  rw [foldl_congr_fun _
    (fun acc kv => acc ++ (tokenTransferSpec accounts pre kv).toList)]
  · rw [foldl_append_toList]
    simp
  · intro b a
    unfold tokenTransferSpec
    dsimp only
    by_cases h1 : tokenAmountOf (dictGet (balanceDict pre) a.1) ≠ tokenAmountOf (some a.2)
    · by_cases h2 : a.1 < accounts.length
      · rw [if_pos h1, if_pos h2, if_pos (And.intro h1 h2)]
        rfl
      · rw [if_pos h1, if_neg h2, if_neg (by tauto)]
        simp
    · rw [if_neg h1, if_neg (by tauto)]
      simp

/-! ## Claim theorems -/

/-- C10: the on-curve wallet check returns True exactly when the address
base58-decodes to exactly 32 bytes; no elliptic-curve point-membership test
is involved, so every structurally well-formed 32-byte address passes. -/
theorem C10_on_curve_is_b58_length (w : String) :
    is_wallet_on_curve w = true ↔ ∃ bs, b58decode w = some bs ∧ bs.length = 32 := by
  unfold is_wallet_on_curve
  cases h : b58decode w with
  | none => simp
  | some bs => simp

/-- Witness for C10 at a concrete 32-character address (which decodes to the
all-zero 32-byte string, a value no signing key corresponds to, yet passes). -/
theorem C10_witness : is_wallet_on_curve addrOnes = true :=
  (C10_on_curve_is_b58_length addrOnes).mpr ⟨List.replicate 32 0, by decide, by decide⟩

/-- C9 counterexample: in `preOnlyRaw` the token balance of account index 0
differs between the pre and post lists (5 versus no entry), yet the
normalizer records no mint-asset transfer at all, because it only iterates
indices present in the post list. -/
theorem C9_counterexample :
    listedTokenAmount (preOnlyRaw.preTokenBalances.getD []) 0 ≠
      listedTokenAmount (preOnlyRaw.postTokenBalances.getD []) 0 ∧
    parse_rpc_transaction preOnlyRaw (some "S9") =
      some { signature := some "S9", timestamp := some 5,
             tokenTransfers := [], nativeTransfers := [] } := by
  decide

/-- C9 amended: for every raw transaction carrying both token-balance lists,
the normalizer records exactly one mint-asset transfer per entry of the
post-balance dict whose computed amount (ui-amount if present, else raw
amount over 10^decimals) differs from the pre amount and whose account index
is within the account-key list — account indices present only in the pre
list produce no transfer. -/
theorem C9_amended (tx : RawTx) (sig : Option String) (pre post : List TokenBalance)
    (hpre : tx.preTokenBalances = some pre) (hpost : tx.postTokenBalances = some post) :
    ∃ p, parse_rpc_transaction tx sig = some p ∧
      p.tokenTransfers = (balanceDict post).filterMap (tokenTransferSpec tx.accountKeys pre) := by
  refine ⟨_, rfl, ?_⟩
  dsimp only
  rw [hpre, hpost]
  exact mkTokenTransfers_eq_filterMap tx.accountKeys pre post

/-- Witness for C9 amended at the concrete `preOnlyRaw` transaction. -/
theorem C9_witness :
    ∃ p, parse_rpc_transaction preOnlyRaw (some "S9") = some p ∧
      p.tokenTransfers =
        (balanceDict []).filterMap (tokenTransferSpec preOnlyRaw.accountKeys [mintBalAt 0 5]) :=
  C9_amended preOnlyRaw (some "S9") [mintBalAt 0 5] [] rfl rfl

/-- C1 counterexample: in the `cxOracle` run the code reports 2 credits
(1 metadata + 1 fallback signature call) while the declared costs of the
calls actually issued sum to 103 (2 metadata lookups, one 100-credit
efficient batch call that raised after being issued, 1 signature call); the
reported figure is less than the declared cost of the calls made. -/
theorem C1_counterexample :
    (analyze_token_early_bidders cxOracle "MINT" 50 10 500).1.api_credits_used = 2 ∧
    (analyze_token_early_bidders cxOracle "MINT" 50 10 500).2 = 103 ∧
    (analyze_token_early_bidders cxOracle "MINT" 50 10 500).1.api_credits_used <
      (analyze_token_early_bidders cxOracle "MINT" 50 10 500).2 := by
  decide

/-- C1 amended: the reported credit figure equals the literal sum of the
declared costs of the calls actually issued provided the primary metadata
endpoint returns data and the efficient pagination strategy completes
without raising; when a metadata fallback is issued or the efficient
strategy raises, the costs issued by the abandoned calls are dropped from
the reported figure. -/
theorem C1_amended (o : LedgerOracle) (mint : String) (minUsd : ℚ) (hours : Int)
    (maxTx : Nat) (m : Metadata) (hm : o.metaPrimary = .ok (some m))
    (r : List ParsedTx × Nat) (hn : (newRun o maxTx).1 = .ok r) :
    (analyze_token_early_bidders o mint minUsd hours maxTx).1.api_credits_used =
      (analyze_token_early_bidders o mint minUsd hours maxTx).2 := by
  have hmeta : get_token_metadata o = ((some m, 1), 1) := by
    unfold get_token_metadata
    rw [hm]
  have hfetch : get_earliest_transactions_new o maxTx none = (r, r.2) := by
    unfold get_earliest_transactions_new
    rcases hh : newRun o maxTx with ⟨x, iss⟩
    rw [hh] at hn
    dsimp only at hn
    subst hn
    have h1 : (newFetchLoop o 501 (min (maxTx : Int) 500) 0 0 [] 0).1 = .ok r := by
      rw [show newFetchLoop o 501 (min (maxTx : Int) 500) 0 0 [] 0 = newRun o maxTx from rfl,
        hh]
    have h2 := newFetchLoop_ok_credits o 501 (min (maxTx : Int) 500) 0 0 [] 0 r rfl h1
    rw [show newFetchLoop o 501 (min (maxTx : Int) 500) 0 0 [] 0 = newRun o maxTx from rfl,
      hh] at h2
    dsimp only at h2
    rw [h2]
  have hre : (analyze_token_early_bidders o mint minUsd hours maxTx) =
      (finishAnalysis mint (get_token_metadata o).1.1 (get_token_metadata o).1.2 minUsd hours
        (get_earliest_transactions_new o maxTx none).1.1
        (get_earliest_transactions_new o maxTx none).1.2,
       (get_token_metadata o).2 + (get_earliest_transactions_new o maxTx none).2) := rfl
  rw [hre, hmeta, hfetch]
  rw [finishAnalysis_credits]

/-- Witness for C1 amended: on the all-successful `okOracle` run the
reported credits equal the issued costs. -/
theorem C1_witness :
    (analyze_token_early_bidders okOracle "MINT" 50 10 500).1.api_credits_used =
      (analyze_token_early_bidders okOracle "MINT" 50 10 500).2 :=
  C1_amended okOracle "MINT" 50 10 500 "M" rfl
    ([{ signature := some "SIG1", timestamp := some 1000,
        tokenTransfers := [{ mint := some "MINT", toUserAccount := some "RecvB",
                             fromUserAccount := none, tokenAmount := 5 }],
        nativeTransfers := [{ fromUserAccount := some addrOnes, toUserAccount := none,
                              amount := 2000000000 },
                            { fromUserAccount := none, toUserAccount := some "RecvB",
                              amount := 2000000000 }] }], 100)
    (by decide)

/-- C4: if the efficient pagination strategy raises at any call, the old
strategy is invoked from scratch and its result is what the caller receives,
and the analysis still assembles a structured `AnalysisResult` from the
fallback's data — the original exception is consumed inside
`_get_earliest_transactions_new` and never reaches the orchestrator. -/
theorem C4_fallback (o : LedgerOracle) (limit : Nat) (tct : Option Int) (mint : String)
    (minUsd : ℚ) (hours : Int) (h : (newRun o limit).1 = .err) :
    (get_earliest_transactions_new o limit tct).1 =
      (get_earliest_transactions_old o limit tct).1 ∧
    (analyze_token_early_bidders o mint minUsd hours limit).1 =
      finishAnalysis mint (get_token_metadata o).1.1 (get_token_metadata o).1.2 minUsd hours
        (get_earliest_transactions_old o limit none).1.1
        (get_earliest_transactions_old o limit none).1.2 := by
  have hnew : ∀ t : Option Int, get_earliest_transactions_new o limit t =
      ((get_earliest_transactions_old o limit t).1,
        (newRun o limit).2 + (get_earliest_transactions_old o limit t).2) := by
    intro t
    unfold get_earliest_transactions_new
    rcases hh : newRun o limit with ⟨x, iss⟩
    rw [hh] at h
    dsimp only at h
    subst h
    rfl
  constructor
  · rw [hnew tct]
  · have hre : (analyze_token_early_bidders o mint minUsd hours limit).1 =
        finishAnalysis mint (get_token_metadata o).1.1 (get_token_metadata o).1.2 minUsd hours
          (get_earliest_transactions_new o limit none).1.1
          (get_earliest_transactions_new o limit none).1.2 := rfl
    rw [hre, hnew none]

/-- Witness for C4 at the concrete `cxOracle`, whose first efficient batch
call raises: the fallback's (empty) result is returned and the analysis
produces the structured no-data result. -/
theorem C4_witness :
    (get_earliest_transactions_new cxOracle 500 none).1 =
      (get_earliest_transactions_old cxOracle 500 none).1 ∧
    (analyze_token_early_bidders cxOracle "MINT" 50 10 500).1 =
      finishAnalysis "MINT" (get_token_metadata cxOracle).1.1
        (get_token_metadata cxOracle).1.2 50 10
        (get_earliest_transactions_old cxOracle 500 none).1.1
        (get_earliest_transactions_old cxOracle 500 none).1.2 :=
  C4_fallback cxOracle 500 none "MINT" 50 10 (by decide)

/-- C7: when zero transactions are retrieved, or no retrieved transaction
carries a usable (truthy) timestamp, the analysis returns a structured
result — the embedding is a total function, so no exception escapes — whose
error field is set, whose buyers list is empty and whose credit field still
carries the metadata credits plus the transaction-fetch credits reported up
to that point. -/
theorem C7_no_data_short_circuit (o : LedgerOracle) (mint : String) (minUsd : ℚ)
    (hours : Int) (maxTx : Nat) :
    ((get_parsed_transactions_earliest o maxTx none).1.1 = [] →
      (analyze_token_early_bidders o mint minUsd hours maxTx).1.error =
          some "No transactions found" ∧
      (analyze_token_early_bidders o mint minUsd hours maxTx).1.early_bidders = [] ∧
      (analyze_token_early_bidders o mint minUsd hours maxTx).1.api_credits_used =
        (get_token_metadata o).1.2 + 0 + (get_parsed_transactions_earliest o maxTx none).1.2) ∧
    ((get_parsed_transactions_earliest o maxTx none).1.1 ≠ [] →
      (∀ tx ∈ (get_parsed_transactions_earliest o maxTx none).1.1,
        truthyInt tx.timestamp = false) →
      (analyze_token_early_bidders o mint minUsd hours maxTx).1.error =
          some "Could not determine first transaction time" ∧
      (analyze_token_early_bidders o mint minUsd hours maxTx).1.early_bidders = [] ∧
      (analyze_token_early_bidders o mint minUsd hours maxTx).1.api_credits_used =
        (get_token_metadata o).1.2 + 0 + (get_parsed_transactions_earliest o maxTx none).1.2) := by
  have hre : (analyze_token_early_bidders o mint minUsd hours maxTx).1 =
      finishAnalysis mint (get_token_metadata o).1.1 (get_token_metadata o).1.2 minUsd hours
        (get_parsed_transactions_earliest o maxTx none).1.1
        (get_parsed_transactions_earliest o maxTx none).1.2 := rfl
  constructor
  · intro h0
    rw [hre, h0]
    exact ⟨rfl, rfl, rfl⟩
  · intro h1 h2
    rw [hre]
    unfold finishAnalysis
    rw [if_neg (by simp [h1])]
    rw [List.find?_eq_none.mpr (by intro x hx; simp [h2 x hx])]
    exact ⟨rfl, rfl, rfl⟩

lemma truthyStr_iff (x : Option String) :
    truthyStr x = true ↔ ∃ s, x = some s ∧ s.isEmpty = false := by
  cases x with
  | none => simp [truthyStr]
  | some s => simp [truthyStr]

lemma scanStep_fst_le (acc : Nat × Option String) (nt : NativeTransfer) :
    acc.1 ≤ (scanStep acc nt).1 := by
  unfold scanStep
  cases nt.fromUserAccount with
  | none => exact le_refl _
  | some sender =>
    dsimp only
    by_cases h1 : sender.isEmpty
    · rw [if_pos h1]
    · rw [if_neg h1]
      by_cases h2 : nt.amount > 100000 ∧ nt.amount > acc.1
      · rw [if_pos h2]
        exact le_of_lt h2.2
      · rw [if_neg h2]

lemma scanStep_qual_le (acc : Nat × Option String) (nt : NativeTransfer)
    (s : String) (hf : nt.fromUserAccount = some s) (hse : s.isEmpty = false)
    (hamt : 100000 < nt.amount) : nt.amount ≤ (scanStep acc nt).1 := by
  unfold scanStep
  rw [hf]
  dsimp only
  rw [if_neg (by simp [hse])]
  by_cases h2 : nt.amount > 100000 ∧ nt.amount > acc.1
  · rw [if_pos h2]
  · rw [if_neg h2]
    rcases not_and_or.mp h2 with h | h
    · exact absurd hamt h
    · exact le_of_not_lt h

lemma scanStep_cases (acc : Nat × Option String) (nt : NativeTransfer) :
    scanStep acc nt = acc ∨
      ∃ s, nt.fromUserAccount = some s ∧ s.isEmpty = false ∧ 100000 < nt.amount ∧
        scanStep acc nt = (nt.amount, some s) := by
  unfold scanStep
  cases hf : nt.fromUserAccount with
  | none => exact Or.inl rfl
  | some sender =>
    dsimp only
    by_cases h1 : sender.isEmpty
    · rw [if_pos h1]
      exact Or.inl rfl
    · rw [if_neg h1]
      by_cases h2 : nt.amount > 100000 ∧ nt.amount > acc.1
      · rw [if_pos h2]
        exact Or.inr ⟨sender, rfl, by simp [h1], h2.1, rfl⟩
      · rw [if_neg h2]
        exact Or.inl rfl

lemma scanFold_spec (nts : List NativeTransfer) :
    ∀ acc : Nat × Option String,
      (∀ nt ∈ nts, ∀ s : String, nt.fromUserAccount = some s → s.isEmpty = false →
        100000 < nt.amount → nt.amount ≤ (nts.foldl scanStep acc).1) ∧
      acc.1 ≤ (nts.foldl scanStep acc).1 ∧
      (nts.foldl scanStep acc = acc ∨
        ∃ nt ∈ nts, ∃ s, nt.fromUserAccount = some s ∧ s.isEmpty = false ∧
          100000 < nt.amount ∧ (nts.foldl scanStep acc).1 = nt.amount ∧
          (nts.foldl scanStep acc).2 = some s) := by
  induction nts with
  | nil =>
    intro acc
    exact ⟨by simp, le_refl _, Or.inl rfl⟩
  | cons nt rest ih =>
    intro acc
    simp only [List.foldl_cons]
    obtain ⟨ihmax, ihle, ihcase⟩ := ih (scanStep acc nt)
    refine ⟨?_, ?_, ?_⟩
    · intro nt2 hmem s hf hse hamt
      rcases List.mem_cons.mp hmem with rfl | hmem2
      · exact le_trans (scanStep_qual_le acc nt2 s hf hse hamt) ihle
      · exact ihmax nt2 hmem2 s hf hse hamt
    · exact le_trans (scanStep_fst_le acc nt) ihle
    · rcases ihcase with heq | ⟨nt0, hmem0, s0, hf0, hse0, hamt0, h1, h2⟩
      · rw [heq]
        rcases scanStep_cases acc nt with h | ⟨s, hf, hse, hamt, h⟩
        · exact Or.inl h
        · exact Or.inr ⟨nt, List.mem_cons_self nt rest, s, hf, hse, hamt,
            by rw [h], by rw [h]⟩
      · exact Or.inr ⟨nt0, List.mem_cons_of_mem nt hmem0, s0, hf0, hse0, hamt0, h1, h2⟩

lemma extractGo_of_scan_none (nts : List NativeTransfer) (mint : String)
    (h : (scanNativeForBuyer nts).2 = none) :
    ∀ tts, extractGo nts mint tts = none := by
  intro tts
  induction tts with
  | nil => rfl
  | cons tt rest ih =>
    unfold extractGo
    split
    · split
      · dsimp only
        rw [h]
        exact ih
      · exact ih
    · exact ih

lemma extractGo_of_scan_some (nts : List NativeTransfer) (mint : String) (s : String)
    (hs : (scanNativeForBuyer nts).2 = some s) (hse : s.isEmpty = false)
    (hpos : 0 < (scanNativeForBuyer nts).1) :
    ∀ tts : List TokenTransfer,
      (∃ tt ∈ tts, tt.mint = some mint ∧ truthyStr tt.toUserAccount = true) →
      extractGo nts mint tts =
        some (s, (((scanNativeForBuyer nts).1 : ℚ) / 1000000000) * 200) := by
  intro tts
  induction tts with
  | nil =>
    intro h
    simp at h
  | cons tt rest ih =>
    intro h
    unfold extractGo
    by_cases hm : tt.mint == some mint
    · rw [if_pos hm]
      by_cases hto : truthyStr tt.toUserAccount
      · rw [if_pos hto]
        dsimp only
        rw [hs]
        dsimp only
        rw [if_pos (And.intro (by simp [hse]) hpos)]
      · rw [if_neg hto]
        refine ih ?_
        rcases h with ⟨tt0, hmem, hm0, hto0⟩
        rcases List.mem_cons.mp hmem with rfl | hmem2
        · exact absurd hto0 hto
        · exact ⟨tt0, hmem2, hm0, hto0⟩
    · rw [if_neg hm]
      refine ih ?_
      rcases h with ⟨tt0, hmem, hm0, hto0⟩
      rcases List.mem_cons.mp hmem with rfl | hmem2
      · exact absurd (by simp [hm0]) hm
      · exact ⟨tt0, hmem2, hm0, hto0⟩

/-- C3: whenever the transaction has a mint-matching token transfer with a
truthy recipient, the extractor returns the sender of the strictly largest
native transfer whose sender is truthy and whose amount strictly exceeds the
100000-unit dust threshold, paired with that amount in whole units times the
fixed 200 USD constant; and when no native transfer exceeds the dust
threshold, no buy event is produced. -/
theorem C3_largest_native_sender (tx : ParsedTx) (mint : String) :
    ((∃ tt ∈ tx.tokenTransfers, tt.mint = some mint ∧ truthyStr tt.toUserAccount = true) →
      ∀ nt ∈ tx.nativeTransfers, ∀ s : String,
        nt.fromUserAccount = some s → s.isEmpty = false → 100000 < nt.amount →
        (∀ nt2 ∈ tx.nativeTransfers, truthyStr nt2.fromUserAccount = true →
          100000 < nt2.amount → nt2 ≠ nt → nt2.amount < nt.amount) →
        extract_buy_info tx mint = some (s, ((nt.amount : ℚ) / 1000000000) * 200)) ∧
    ((∀ nt ∈ tx.nativeTransfers, truthyStr nt.fromUserAccount = true →
        nt.amount ≤ 100000) →
      extract_buy_info tx mint = none) := by
  obtain ⟨hmax, hle0, hcase⟩ := scanFold_spec tx.nativeTransfers (0, none)
  constructor
  · intro hex nt hmem s hf hse hamt hdom
    have hntle : nt.amount ≤ (scanNativeForBuyer tx.nativeTransfers).1 :=
      hmax nt hmem s hf hse hamt
    rcases hcase with heq | ⟨nt0, hmem0, s0, hf0, hse0, hamt0, h1, h2⟩
    · rw [show scanNativeForBuyer tx.nativeTransfers = tx.nativeTransfers.foldl scanStep (0, none) from rfl,
        heq] at hntle
      omega
    · have hnt0 : nt0 = nt := by
        by_contra hne
        have := hdom nt0 hmem0 ((truthyStr_iff nt0.fromUserAccount).mpr ⟨s0, hf0, hse0⟩)
          hamt0 hne
        rw [show (tx.nativeTransfers.foldl scanStep (0, none)) = scanNativeForBuyer tx.nativeTransfers from rfl] at h1
        omega
      subst hnt0
      have hs0 : s0 = s := by
        rw [hf0] at hf
        exact (Option.some.injEq _ _).mp hf.symm ▸ rfl
      subst hs0
      rw [show (tx.nativeTransfers.foldl scanStep (0, none)) = scanNativeForBuyer tx.nativeTransfers from rfl] at h1 h2
      have := extractGo_of_scan_some tx.nativeTransfers mint s0 h2 hse0
        (by omega) tx.tokenTransfers hex
      rw [extract_buy_info, this, h1]
  · intro hsmall
    rcases hcase with heq | ⟨nt0, hmem0, s0, hf0, hse0, hamt0, h1, h2⟩
    · have hnone : (scanNativeForBuyer tx.nativeTransfers).2 = none := by
        rw [show scanNativeForBuyer tx.nativeTransfers = tx.nativeTransfers.foldl scanStep (0, none) from rfl,
          heq]
      exact extractGo_of_scan_none tx.nativeTransfers mint hnone tx.tokenTransfers
    · have := hsmall nt0 hmem0 ((truthyStr_iff nt0.fromUserAccount).mpr ⟨s0, hf0, hse0⟩)
      omega

/-- Witness for C3 at the spec's two examples: buyer B (2000000 units) is
selected over A (50000 units), and a transaction whose native transfers are
all at or below the dust threshold yields no buy event. -/
theorem C3_witness :
    extract_buy_info largestSenderTx "MINT" =
      some ("B", ((2000000 : ℚ) / 1000000000) * 200) ∧
    extract_buy_info dustTx "MINT" = none := by
  constructor
  · exact (C3_largest_native_sender largestSenderTx "MINT").1 (by decide)
      { fromUserAccount := some "B", toUserAccount := none, amount := 2000000 }
      (by decide) "B" rfl (by decide) (by decide) (by decide)
  · exact (C3_largest_native_sender dustTx "MINT").2 (by decide)

/-- Witness for C7: the zero-transaction case at `emptyOracle` and the
no-timestamp case at `noTsOracle`. -/
theorem C7_witness :
    ((analyze_token_early_bidders emptyOracle "MINT" 50 10 500).1.error =
        some "No transactions found" ∧
      (analyze_token_early_bidders emptyOracle "MINT" 50 10 500).1.early_bidders = [] ∧
      (analyze_token_early_bidders emptyOracle "MINT" 50 10 500).1.api_credits_used =
        (get_token_metadata emptyOracle).1.2 + 0 +
          (get_parsed_transactions_earliest emptyOracle 500 none).1.2) ∧
    ((analyze_token_early_bidders noTsOracle "MINT" 50 10 500).1.error =
        some "Could not determine first transaction time" ∧
      (analyze_token_early_bidders noTsOracle "MINT" 50 10 500).1.early_bidders = [] ∧
      (analyze_token_early_bidders noTsOracle "MINT" 50 10 500).1.api_credits_used =
        (get_token_metadata noTsOracle).1.2 + 0 +
          (get_parsed_transactions_earliest noTsOracle 500 none).1.2) :=
  ⟨(C7_no_data_short_circuit emptyOracle "MINT" 50 10 500).1 (by decide),
   (C7_no_data_short_circuit noTsOracle "MINT" 50 10 500).2 (by decide) (by decide)⟩

/-! ## Aggregation lemmas -/

lemma updateBuyer_wallet (b : BuyerAcc) (ts : Int) (usd : ℚ) :
    (updateBuyer b ts usd).wallet_address = b.wallet_address := rfl

lemma mem_upsertBuyer :
    ∀ (l : List BuyerAcc) (w : String) (ts : Int) (usd : ℚ), ∀ b ∈ upsertBuyer l w ts usd,
      b ∈ l ∨ (∃ a ∈ l, a.wallet_address = w ∧ b = updateBuyer a ts usd) ∨
        b = ⟨w, ts, usd, 1⟩ := by
  intro l
  induction l with
  | nil =>
    intro w ts usd b hb
    simp only [upsertBuyer] at hb
    rcases List.mem_singleton.mp hb with rfl
    exact Or.inr (Or.inr rfl)
  | cons c rest ih =>
    intro w ts usd b hb
    unfold upsertBuyer at hb
    by_cases hw : c.wallet_address == w
    · rw [if_pos hw] at hb
      rcases List.mem_cons.mp hb with rfl | hmem
      · exact Or.inr (Or.inl ⟨c, List.mem_cons_self c rest, by simpa using hw, rfl⟩)
      · exact Or.inl (List.mem_cons_of_mem c hmem)
    · rw [if_neg hw] at hb
      rcases List.mem_cons.mp hb with rfl | hmem
      · exact Or.inl (List.mem_cons_self b rest)
      · rcases ih w ts usd b hmem with h | ⟨a, ha, haw, hb2⟩ | h
        · exact Or.inl (List.mem_cons_of_mem c h)
        · exact Or.inr (Or.inl ⟨a, List.mem_cons_of_mem c ha, haw, hb2⟩)
        · exact Or.inr (Or.inr h)

lemma mem_processTx (mint : String) (minUsd : ℚ) (wEnd : Int) (l : List BuyerAcc)
    (tx : ParsedTx) : ∀ b ∈ processTx mint minUsd wEnd l tx,
      b ∈ l ∨ ∃ w ts usd, is_wallet_on_curve w = true ∧ minUsd ≤ usd ∧
        ((∃ a ∈ l, a.wallet_address = w ∧ b = updateBuyer a ts usd) ∨
          b = ⟨w, ts, usd, 1⟩) := by
  intro b hb
  unfold processTx at hb
  split at hb
  · exact Or.inl hb
  · dsimp only at hb
    split at hb
    · exact Or.inl hb
    · cases hx : extract_buy_info tx mint with
      | none => rw [hx] at hb; exact Or.inl hb
      | some p =>
        obtain ⟨w, usd⟩ := p
        rw [hx] at hb
        dsimp only at hb
        split at hb
        · exact Or.inl hb
        · split at hb
          · exact Or.inl hb
          · split at hb
            · rename_i hne hcurve hth
              rcases mem_upsertBuyer l w (tx.timestamp.getD 0) usd b hb with
                h | h | h
              · exact Or.inl h
              · exact Or.inr ⟨w, tx.timestamp.getD 0, usd,
                  by simpa using hcurve, hth, Or.inl h⟩
              · exact Or.inr ⟨w, tx.timestamp.getD 0, usd,
                  by simpa using hcurve, hth, Or.inr h⟩
            · exact Or.inl hb

lemma fold_processTx_pred (mint : String) (minUsd : ℚ) (wEnd : Int)
    (P : BuyerAcc → Prop)
    (hupd : ∀ a ts usd, P a → P (updateBuyer a ts usd))
    (hnew : ∀ (w : String) (ts : Int) (usd : ℚ), is_wallet_on_curve w = true →
      minUsd ≤ usd → P ⟨w, ts, usd, 1⟩) :
    ∀ (txs : List ParsedTx) (l : List BuyerAcc), (∀ b ∈ l, P b) →
      ∀ b ∈ txs.foldl (processTx mint minUsd wEnd) l, P b := by
  intro txs
  induction txs with
  | nil => intro l hl b hb; exact hl b hb
  | cons tx rest ih =>
    intro l hl b hb
    rw [List.foldl_cons] at hb
    refine ih (processTx mint minUsd wEnd l tx) ?_ b hb
    intro c hc
    rcases mem_processTx mint minUsd wEnd l tx c hc with h | ⟨w, ts, usd, hcu, hth, h | h⟩
    · exact hl c h
    · rcases h with ⟨a, ha, _, rfl⟩
      exact hupd a ts usd (hl a ha)
    · rw [h]
      exact hnew w ts usd hcu hth

/-! ## Sorting lemmas -/

lemma mem_insertByFirstBuy (b : BidderOut) :
    ∀ (l : List BidderOut) (x : BidderOut), x ∈ insertByFirstBuy b l ↔ x = b ∨ x ∈ l := by
  intro l
  induction l with
  | nil => intro x; simp [insertByFirstBuy]
  | cons c rest ih =>
    intro x
    unfold insertByFirstBuy
    by_cases h : c.first_buy_time ≤ b.first_buy_time
    · rw [if_pos h]
      constructor
      · intro hx
        rcases List.mem_cons.mp hx with rfl | hx2
        · exact Or.inr (List.mem_cons_self x rest)
        · rcases (ih x).mp hx2 with h2 | h2
          · exact Or.inl h2
          · exact Or.inr (List.mem_cons_of_mem c h2)
      · intro hx
        rcases hx with rfl | hx2
        · exact List.mem_cons_of_mem c ((ih x).mpr (Or.inl rfl))
        · rcases List.mem_cons.mp hx2 with rfl | hx3
          · exact List.mem_cons_self x _
          · exact List.mem_cons_of_mem c ((ih x).mpr (Or.inr hx3))
    · rw [if_neg h]
      simp [List.mem_cons]

lemma pairwise_insertByFirstBuy (b : BidderOut) :
    ∀ l : List BidderOut,
      l.Pairwise (fun x y => x.first_buy_time ≤ y.first_buy_time) →
      (insertByFirstBuy b l).Pairwise (fun x y => x.first_buy_time ≤ y.first_buy_time) := by
  intro l
  induction l with
  | nil => intro _; simp [insertByFirstBuy]
  | cons c rest ih =>
    intro h
    unfold insertByFirstBuy
    by_cases hcb : c.first_buy_time ≤ b.first_buy_time
    · rw [if_pos hcb]
      rcases List.pairwise_cons.mp h with ⟨hcrest, hrest⟩
      refine List.pairwise_cons.mpr ⟨?_, ih hrest⟩
      intro x hx
      rcases (mem_insertByFirstBuy b rest x).mp hx with rfl | hx2
      · exact hcb
      · exact hcrest x hx2
    · rw [if_neg hcb]
      have hbc : b.first_buy_time ≤ c.first_buy_time := le_of_not_le hcb
      refine List.pairwise_cons.mpr ⟨?_, h⟩
      intro x hx
      rcases List.mem_cons.mp hx with rfl | hx2
      · exact hbc
      · exact le_trans hbc ((List.pairwise_cons.mp h).1 x hx2)

lemma sortBidders_pairwise_aux :
    ∀ (l acc : List BidderOut),
      acc.Pairwise (fun x y => x.first_buy_time ≤ y.first_buy_time) →
      (l.foldl (fun acc b => insertByFirstBuy b acc) acc).Pairwise
        (fun x y => x.first_buy_time ≤ y.first_buy_time) := by
  intro l
  induction l with
  | nil => intro acc h; exact h
  | cons b rest ih =>
    intro acc h
    rw [List.foldl_cons]
    exact ih (insertByFirstBuy b acc) (pairwise_insertByFirstBuy b acc h)

lemma sortBidders_pairwise (l : List BidderOut) :
    (sortBidders l).Pairwise (fun x y => x.first_buy_time ≤ y.first_buy_time) :=
  sortBidders_pairwise_aux l [] (List.Pairwise.nil)

lemma mem_sortBidders_aux :
    ∀ (l acc : List BidderOut) (x : BidderOut),
      x ∈ l.foldl (fun acc b => insertByFirstBuy b acc) acc ↔ x ∈ acc ∨ x ∈ l := by
  intro l
  induction l with
  | nil => intro acc x; simp
  | cons b rest ih =>
    intro acc x
    rw [List.foldl_cons]
    rw [ih (insertByFirstBuy b acc) x, mem_insertByFirstBuy]
    simp [List.mem_cons]
    tauto

lemma mem_sortBidders (l : List BidderOut) (x : BidderOut) :
    x ∈ sortBidders l ↔ x ∈ l := by
  unfold sortBidders
  rw [mem_sortBidders_aux]
  simp

lemma finish_bidders_shape (mint : String) (ti : Option Metadata) (mc : Nat)
    (minUsd : ℚ) (hours : Int) (txs : List ParsedTx) (tc : Nat) :
    (finishAnalysis mint ti mc minUsd hours txs tc).early_bidders = [] ∨
    ∃ ftx, txs.find? (fun tx => truthyInt tx.timestamp) = some ftx ∧
      (finishAnalysis mint ti mc minUsd hours txs tc).early_bidders =
        sortBidders ((txs.foldl
          (processTx mint minUsd (ftx.timestamp.getD 0 + hours * 3600)) []).map
          finalizeBidder) ∧
      (finishAnalysis mint ti mc minUsd hours txs tc).analysis_window_end =
        some (ftx.timestamp.getD 0 + hours * 3600) := by
  unfold finishAnalysis
  split
  · exact Or.inl rfl
  · cases hf : txs.find? (fun tx => truthyInt tx.timestamp) with
    | none => exact Or.inl rfl
    | some ftx => exact Or.inr ⟨ftx, rfl, rfl, rfl⟩

lemma analysis_bidders_from_fold (o : LedgerOracle) (mint : String) (minUsd : ℚ)
    (hours : Int) (maxTx : Nat) :
    ∀ b ∈ (analyze_token_early_bidders o mint minUsd hours maxTx).1.early_bidders,
      ∃ (wEnd : Int) (a : BuyerAcc),
        a ∈ (get_parsed_transactions_earliest o maxTx none).1.1.foldl
          (processTx mint minUsd wEnd) [] ∧ b = finalizeBidder a := by
  intro b hb
  have hre : (analyze_token_early_bidders o mint minUsd hours maxTx).1 =
      finishAnalysis mint (get_token_metadata o).1.1 (get_token_metadata o).1.2 minUsd hours
        (get_parsed_transactions_earliest o maxTx none).1.1
        (get_parsed_transactions_earliest o maxTx none).1.2 := rfl
  rw [hre] at hb
  rcases finish_bidders_shape mint (get_token_metadata o).1.1 (get_token_metadata o).1.2
    minUsd hours (get_parsed_transactions_earliest o maxTx none).1.1
    (get_parsed_transactions_earliest o maxTx none).1.2 with hnil | ⟨ftx, _, hbid, _⟩
  · rw [hnil] at hb
    simp at hb
  · rw [hbid, mem_sortBidders] at hb
    obtain ⟨a, ha, rfl⟩ := List.mem_map.mp hb
    exact ⟨ftx.timestamp.getD 0 + hours * 3600, a, ha, rfl⟩

lemma analysis_bidders_pairwise (o : LedgerOracle) (mint : String) (minUsd : ℚ)
    (hours : Int) (maxTx : Nat) :
    (analyze_token_early_bidders o mint minUsd hours maxTx).1.early_bidders.Pairwise
      (fun x y => x.first_buy_time ≤ y.first_buy_time) := by
  have hre : (analyze_token_early_bidders o mint minUsd hours maxTx).1 =
      finishAnalysis mint (get_token_metadata o).1.1 (get_token_metadata o).1.2 minUsd hours
        (get_parsed_transactions_earliest o maxTx none).1.1
        (get_parsed_transactions_earliest o maxTx none).1.2 := rfl
  rw [hre]
  rcases finish_bidders_shape mint (get_token_metadata o).1.1 (get_token_metadata o).1.2
    minUsd hours (get_parsed_transactions_earliest o maxTx none).1.1
    (get_parsed_transactions_earliest o maxTx none).1.2 with hnil | ⟨ftx, _, hbid, _⟩
  · rw [hnil]
    exact List.Pairwise.nil
  · rw [hbid]
    exact sortBidders_pairwise _

/-- C6: every wallet in the returned buyers list passes the on-curve check —
a wallet whose address fails it is never present, regardless of its spend. -/
theorem C6_on_curve_filter (o : LedgerOracle) (mint : String) (minUsd : ℚ)
    (hours : Int) (maxTx : Nat) :
    ∀ b ∈ (analyze_token_early_bidders o mint minUsd hours maxTx).1.early_bidders,
      is_wallet_on_curve b.wallet_address = true := by
  intro b hb
  obtain ⟨wEnd, a, ha, rfl⟩ := analysis_bidders_from_fold o mint minUsd hours maxTx b hb
  exact fold_processTx_pred mint minUsd wEnd
    (fun x => is_wallet_on_curve x.wallet_address = true)
    (fun a ts usd h => by simpa [updateBuyer_wallet] using h)
    (fun w ts usd hc _ => hc)
    (get_parsed_transactions_earliest o maxTx none).1.1 [] (by simp) a ha

/-- Witness for C6: the single buyer returned by the `okOracle` run is the
on-curve address `addrOnes`. -/
theorem C6_witness :
    is_wallet_on_curve
      ({ wallet_address := addrOnes, first_buy_time := 1000, total_usd := 400,
         transaction_count := 1, average_buy_usd := 400 } : BidderOut).wallet_address = true :=
  C6_on_curve_filter okOracle "MINT" 50 10 500 _ (by decide)

/-- C8: the returned buyers list is non-decreasing by first buy time, and in
every entry the average equals the total divided by the transaction count,
with at least one counted transaction. -/
theorem C8_sorted_and_average (o : LedgerOracle) (mint : String) (minUsd : ℚ)
    (hours : Int) (maxTx : Nat) :
    (analyze_token_early_bidders o mint minUsd hours maxTx).1.early_bidders.Pairwise
      (fun x y => x.first_buy_time ≤ y.first_buy_time) ∧
    ∀ b ∈ (analyze_token_early_bidders o mint minUsd hours maxTx).1.early_bidders,
      1 ≤ b.transaction_count ∧
        b.average_buy_usd = b.total_usd / (b.transaction_count : ℚ) := by
  refine ⟨analysis_bidders_pairwise o mint minUsd hours maxTx, ?_⟩
  intro b hb
  obtain ⟨wEnd, a, ha, rfl⟩ := analysis_bidders_from_fold o mint minUsd hours maxTx b hb
  refine ⟨?_, rfl⟩
  exact fold_processTx_pred mint minUsd wEnd (fun x => 1 ≤ x.transaction_count)
    (fun a ts usd h => Nat.le_succ_of_le h)
    (fun w ts usd _ _ => le_refl 1)
    (get_parsed_transactions_earliest o maxTx none).1.1 [] (by simp) a ha

/-- Witness for C8 at the `okOracle` run. -/
theorem C8_witness :
    (analyze_token_early_bidders okOracle "MINT" 50 10 500).1.early_bidders.Pairwise
      (fun x y => x.first_buy_time ≤ y.first_buy_time) ∧
    (1 ≤ ({ wallet_address := addrOnes, first_buy_time := 1000, total_usd := 400,
            transaction_count := 1, average_buy_usd := 400 } : BidderOut).transaction_count ∧
      ({ wallet_address := addrOnes, first_buy_time := 1000, total_usd := 400,
         transaction_count := 1, average_buy_usd := 400 } : BidderOut).average_buy_usd =
        ({ wallet_address := addrOnes, first_buy_time := 1000, total_usd := 400,
           transaction_count := 1, average_buy_usd := 400 } : BidderOut).total_usd /
        (({ wallet_address := addrOnes, first_buy_time := 1000, total_usd := 400,
            transaction_count := 1, average_buy_usd := 400 } : BidderOut).transaction_count : ℚ)) :=
  ⟨(C8_sorted_and_average okOracle "MINT" 50 10 500).1,
   (C8_sorted_and_average okOracle "MINT" 50 10 500).2 _ (by decide)⟩

/-- An oracle delivering two qualifying buyers: `buyerX` at time 1000 and
`buyerY` at time 1100, 60 USD each. -/
def twoBuyerOracle : LedgerOracle :=
  { metaPrimary := .ok (some "M"), metaSecondary := .ok none,
    batchCall := fun n =>
      if n = 0 then
        .ok (some { data := [mkBuyRaw buyerX "RX" 300000000 5 1000 "SX",
                             mkBuyRaw buyerY "RY" 300000000 5 1100 "SY"],
                    paginationToken := none })
      else .err,
    sigCall := fun _ => .err, detailCall := fun _ => .err }

/-- C2 (spec-modelled truncation): the buyers list of the entry point taking
`maxWalletsToReturn` has at most that many entries, is exactly the prefix of
the full sorted list (earliest buyers, relative order preserved), and every
kept entry's first buy time is at most that of every dropped entry. -/
theorem C2_truncation (o : LedgerOracle) (mint : String) (minUsd : ℚ) (hours : Int)
    (maxTx maxW : Nat) :
    (analyze_with_max_wallets o mint minUsd hours maxTx maxW).early_bidders.length ≤ maxW ∧
    (analyze_with_max_wallets o mint minUsd hours maxTx maxW).early_bidders =
      (analyze_token_early_bidders o mint minUsd hours maxTx).1.early_bidders.take maxW ∧
    ∀ b ∈ (analyze_with_max_wallets o mint minUsd hours maxTx maxW).early_bidders,
      ∀ c ∈ (analyze_token_early_bidders o mint minUsd hours maxTx).1.early_bidders.drop maxW,
        b.first_buy_time ≤ c.first_buy_time := by
  have htr : (analyze_with_max_wallets o mint minUsd hours maxTx maxW).early_bidders =
      (analyze_token_early_bidders o mint minUsd hours maxTx).1.early_bidders.take maxW := rfl
  refine ⟨?_, htr, ?_⟩
  · rw [htr, List.length_take]
    exact min_le_left _ _
  · intro b hb c hc
    have hp := analysis_bidders_pairwise o mint minUsd hours maxTx
    rw [← List.take_append_drop maxW
      (analyze_token_early_bidders o mint minUsd hours maxTx).1.early_bidders] at hp
    rw [htr] at hb
    exact (List.pairwise_append.mp hp).2.2 b hb c hc

/-- Witness for C2 at the two-buyer run with `maxWalletsToReturn = 1`: one
entry is kept, it is the earliest buyer, and its first buy time is at most
the dropped buyer's. -/
theorem C2_witness :
    (analyze_with_max_wallets twoBuyerOracle "MINT" 50 10 500 1).early_bidders.length ≤ 1 ∧
    (analyze_with_max_wallets twoBuyerOracle "MINT" 50 10 500 1).early_bidders =
      (analyze_token_early_bidders twoBuyerOracle "MINT" 50 10 500).1.early_bidders.take 1 ∧
    ({ wallet_address := buyerX, first_buy_time := 1000, total_usd := 60,
       transaction_count := 1, average_buy_usd := 60 } : BidderOut).first_buy_time ≤
      ({ wallet_address := buyerY, first_buy_time := 1100, total_usd := 60,
         transaction_count := 1, average_buy_usd := 60 } : BidderOut).first_buy_time :=
  ⟨(C2_truncation twoBuyerOracle "MINT" 50 10 500 1).1,
   (C2_truncation twoBuyerOracle "MINT" 50 10 500 1).2.1,
   (C2_truncation twoBuyerOracle "MINT" 50 10 500 1).2.2 _ (by decide) _ (by decide)⟩

/-! ## Event-level characterization of the aggregation loop -/

lemma processTx_eq_event (mint : String) (minUsd : ℚ) (wEnd : Int)
    (l : List BuyerAcc) (tx : ParsedTx) :
    processTx mint minUsd wEnd l tx =
      match buyEventOf mint wEnd tx with
      | none => l
      | some e => stepEvent minUsd l e := by
  unfold processTx buyEventOf
  by_cases h1 : truthyInt tx.timestamp = false
  · rw [if_pos h1, if_pos h1]
  · rw [if_neg h1, if_neg h1]
    dsimp only
    by_cases h2 : tx.timestamp.getD 0 > wEnd
    · rw [if_pos h2, if_pos h2]
    · rw [if_neg h2, if_neg h2]
      cases hx : extract_buy_info tx mint with
      | none => rfl
      | some p =>
        obtain ⟨w, usd⟩ := p
        dsimp only
        by_cases h3 : w.isEmpty = true ∨ usd = 0
        · rw [if_pos h3, if_pos h3]
        · rw [if_neg h3, if_neg h3]
          unfold stepEvent
          dsimp only
          by_cases h4 : is_wallet_on_curve w = false
          · rw [if_pos h4, if_neg (by simp [h4])]
          · rw [if_neg h4]
            have h4t : is_wallet_on_curve w = true := by
              simpa using h4
            by_cases h5 : minUsd ≤ usd
            · rw [if_pos h5, if_pos (And.intro h4t h5)]
            · rw [if_neg h5, if_neg (by tauto)]

lemma foldl_processTx_eq_events (mint : String) (minUsd : ℚ) (wEnd : Int) :
    ∀ (txs : List ParsedTx) (l : List BuyerAcc),
      txs.foldl (processTx mint minUsd wEnd) l =
        (txs.filterMap (buyEventOf mint wEnd)).foldl (stepEvent minUsd) l := by
  intro txs
  induction txs with
  | nil => intro l; rfl
  | cons tx rest ih =>
    intro l
    rw [List.foldl_cons, List.filterMap_cons, processTx_eq_event]
    cases buyEventOf mint wEnd tx with
    | none => exact ih l
    | some e =>
      rw [List.foldl_cons]
      exact ih (stepEvent minUsd l e)

/-- Dict lookup on the buyers map. -/
def findBuyer (l : List BuyerAcc) (w : String) : Option BuyerAcc :=
  l.find? (fun b => b.wallet_address == w)

lemma findBuyer_upsert_self :
    ∀ (l : List BuyerAcc) (w : String) (ts : Int) (usd : ℚ),
      findBuyer (upsertBuyer l w ts usd) w =
        some (match findBuyer l w with
              | none => ⟨w, ts, usd, 1⟩
              | some a => updateBuyer a ts usd) := by
  intro l
  induction l with
  | nil =>
    intro w ts usd
    simp [upsertBuyer, findBuyer, List.find?]
  | cons b rest ih =>
    intro w ts usd
    unfold upsertBuyer findBuyer
    by_cases hw : (b.wallet_address == w) = true
    · rw [if_pos hw]
      simp only [List.find?, updateBuyer_wallet, hw]
    · rw [if_neg hw]
      have hwf : (b.wallet_address == w) = false := by
        simpa using hw
      simp only [List.find?, hwf]
      exact ih w ts usd

lemma findBuyer_upsert_other :
    ∀ (l : List BuyerAcc) (w w' : String) (ts : Int) (usd : ℚ), w ≠ w' →
      findBuyer (upsertBuyer l w ts usd) w' = findBuyer l w' := by
  intro l
  induction l with
  | nil =>
    intro w w' ts usd hne
    have hf : (w == w') = false := by
      simpa using hne
    simp [upsertBuyer, findBuyer, List.find?, hf]
  | cons b rest ih =>
    intro w w' ts usd hne
    unfold upsertBuyer findBuyer
    by_cases hw : (b.wallet_address == w) = true
    · rw [if_pos hw]
      have hbw : b.wallet_address = w := by simpa using hw
      have hw' : (b.wallet_address == w') = false := by
        simp [hbw]
        exact hne
      simp only [List.find?, updateBuyer_wallet, hw']
    · rw [if_neg hw]
      by_cases hw' : (b.wallet_address == w') = true
      · simp only [List.find?, hw']
      · have hwf : (b.wallet_address == w') = false := by
          simpa using hw'
        simp only [List.find?, hwf]
        exact ih w w' ts usd hne

/-- Replay of one wallet's qualifying events onto an optional aggregate. -/
def buyerFromEvents (w : String) :
    Option BuyerAcc → List (String × ℚ × Int) → Option BuyerAcc
  | b, [] => b
  | none, e :: es =>
    buyerFromEvents w (some ⟨w, e.2.2, e.2.1, 1⟩) es
  | some b, e :: es =>
    buyerFromEvents w (some (updateBuyer b e.2.2 e.2.1)) es

/-- The qualifying test of the aggregation loop for wallet `w`: the event is
for `w` and meets the per-transaction minimum. -/
def qualEvent (minUsd : ℚ) (w : String) (e : String × ℚ × Int) : Bool :=
  (e.1 == w) && decide (minUsd ≤ e.2.1)

lemma fold_stepEvent_findBuyer (minUsd : ℚ) (w : String)
    (hc : is_wallet_on_curve w = true) :
    ∀ (es : List (String × ℚ × Int)) (l : List BuyerAcc),
      findBuyer (es.foldl (stepEvent minUsd) l) w =
        buyerFromEvents w (findBuyer l w) (es.filter (qualEvent minUsd w)) := by
  intro es
  induction es with
  | nil => intro l; simp [buyerFromEvents]
  | cons e es ih =>
    intro l
    rw [List.foldl_cons, List.filter_cons]
    by_cases hq : qualEvent minUsd w e = true
    · rw [if_pos hq]
      have hw : e.1 = w := by
        have := (Bool.and_eq_true _ _).mp hq
        simpa using this.1
      have hle : minUsd ≤ e.2.1 := by
        have := (Bool.and_eq_true _ _).mp hq
        simpa using this.2
      have hstep : stepEvent minUsd l e = upsertBuyer l e.1 e.2.2 e.2.1 := by
        unfold stepEvent
        rw [if_pos (And.intro (by rw [hw]; exact hc) hle)]
      rw [hstep, ih, hw, findBuyer_upsert_self]
      cases findBuyer l w with
      | none => rfl
      | some a => rfl
    · rw [if_neg hq]
      have hfix : findBuyer (stepEvent minUsd l e) w = findBuyer l w := by
        unfold stepEvent
        split
        · rename_i hcond
          refine findBuyer_upsert_other l e.1 w e.2.2 e.2.1 ?_
          intro heq
          exact hq (by simp [qualEvent, heq, hcond.2])
        · rfl
      rw [ih, hfix]

lemma buyerFromEvents_some_spec (w : String) :
    ∀ (es : List (String × ℚ × Int)) (b : BuyerAcc),
      ∃ a, buyerFromEvents w (some b) es = some a ∧
        a.wallet_address = b.wallet_address ∧
        a.total_usd = b.total_usd + (es.map (fun e => e.2.1)).sum ∧
        a.transaction_count = b.transaction_count + es.length := by
  intro es
  induction es with
  | nil =>
    intro b
    exact ⟨b, rfl, rfl, by simp, by simp⟩
  | cons e es ih =>
    intro b
    obtain ⟨a, ha, haw, hat, hac⟩ := ih (updateBuyer b e.2.2 e.2.1)
    refine ⟨a, ha, ?_, ?_, ?_⟩
    · rw [haw, updateBuyer_wallet]
    · rw [hat]
      unfold updateBuyer
      dsimp only
      rw [List.map_cons, List.sum_cons]
      ring
    · rw [hac]
      unfold updateBuyer
      dsimp only
      rw [List.length_cons]
      omega

lemma buyerFromEvents_none_spec (w : String) :
    ∀ (es : List (String × ℚ × Int)), es ≠ [] →
      ∃ a, buyerFromEvents w none es = some a ∧
        a.wallet_address = w ∧
        a.total_usd = (es.map (fun e => e.2.1)).sum ∧
        a.transaction_count = es.length := by
  intro es hne
  cases es with
  | nil => exact absurd rfl hne
  | cons e es =>
    unfold buyerFromEvents
    obtain ⟨a, ha, haw, hat, hac⟩ :=
      buyerFromEvents_some_spec w es ⟨w, e.2.2, e.2.1, 1⟩
    refine ⟨a, ha, haw, ?_, ?_⟩
    · rw [hat]
      dsimp only
      rw [List.map_cons, List.sum_cons]
    · rw [hac]
      dsimp only
      rw [List.length_cons]
      omega

/-! ## Uniqueness of wallets in the buyers map -/

/-- The wallets of the buyers map are pairwise distinct (Python dict keys). -/
def WDistinct (l : List BuyerAcc) : Prop :=
  l.Pairwise (fun a b => a.wallet_address ≠ b.wallet_address)

lemma wallet_mem_upsert (l : List BuyerAcc) (w : String) (ts : Int) (usd : ℚ) :
    ∀ b ∈ upsertBuyer l w ts usd,
      b.wallet_address = w ∨ ∃ a ∈ l, b.wallet_address = a.wallet_address := by
  intro b hb
  rcases mem_upsertBuyer l w ts usd b hb with h | ⟨a, ha, haw, rfl⟩ | rfl
  · exact Or.inr ⟨b, h, rfl⟩
  · rw [updateBuyer_wallet]
    exact Or.inr ⟨a, ha, rfl⟩
  · exact Or.inl rfl

lemma wdistinct_upsert :
    ∀ (l : List BuyerAcc) (w : String) (ts : Int) (usd : ℚ),
      WDistinct l → WDistinct (upsertBuyer l w ts usd) := by
  intro l
  induction l with
  | nil =>
    intro w ts usd _
    simp [upsertBuyer, WDistinct]
  | cons b rest ih =>
    intro w ts usd h
    rcases List.pairwise_cons.mp h with ⟨hbrest, hrest⟩
    unfold upsertBuyer
    by_cases hw : b.wallet_address == w
    · rw [if_pos hw]
      refine List.pairwise_cons.mpr ⟨?_, hrest⟩
      intro x hx
      rw [updateBuyer_wallet]
      exact hbrest x hx
    · rw [if_neg hw]
      refine List.pairwise_cons.mpr ⟨?_, ih w ts usd hrest⟩
      intro x hx
      rcases wallet_mem_upsert rest w ts usd x hx with hxw | ⟨a, ha, hxa⟩
      · rw [hxw]
        intro hbw
        exact hw (by simp [hbw])
      · rw [hxa]
        exact hbrest a ha


lemma wdistinct_processTx (mint : String) (minUsd : ℚ) (wEnd : Int)
    (l : List BuyerAcc) (tx : ParsedTx) (h : WDistinct l) :
    WDistinct (processTx mint minUsd wEnd l tx) := by
  unfold processTx
  split
  · exact h
  · dsimp only
    split
    · exact h
    · cases extract_buy_info tx mint with
      | none => exact h
      | some p =>
        obtain ⟨w, usd⟩ := p
        dsimp only
        split
        · exact h
        · split
          · exact h
          · split
            · exact wdistinct_upsert l w (tx.timestamp.getD 0) usd h
            · exact h

lemma wdistinct_fold (mint : String) (minUsd : ℚ) (wEnd : Int) :
    ∀ (txs : List ParsedTx) (l : List BuyerAcc), WDistinct l →
      WDistinct (txs.foldl (processTx mint minUsd wEnd) l) := by
  intro txs
  induction txs with
  | nil => intro l h; exact h
  | cons tx rest ih =>
    intro l h
    rw [List.foldl_cons]
    exact ih _ (wdistinct_processTx mint minUsd wEnd l tx h)

lemma findBuyer_of_mem :
    ∀ (l : List BuyerAcc), WDistinct l → ∀ b ∈ l,
      findBuyer l b.wallet_address = some b := by
  intro l
  induction l with
  | nil => intro _ b hb; simp at hb
  | cons c rest ih =>
    intro h b hb
    rcases List.pairwise_cons.mp h with ⟨hcrest, hrest⟩
    rcases List.mem_cons.mp hb with rfl | hmem
    · unfold findBuyer
      rw [List.find?_cons_of_pos _ (by simp)]
    · unfold findBuyer
      rw [List.find?_cons_of_neg _ (by simpa using hcrest b hmem)]
      exact ih hrest b hmem

/-- The buy-event stream the aggregation loop of an analysis run inspects:
the retrieved transactions mapped through `buyEventOf` at the run's window
end (`analysis_window_end`). -/
def analysisEvents (o : LedgerOracle) (mint : String) (minUsd : ℚ) (hours : Int)
    (maxTx : Nat) : List (String × ℚ × Int) :=
  (get_parsed_transactions_earliest o maxTx none).1.1.filterMap
    (buyEventOf mint
      ((analyze_token_early_bidders o mint minUsd hours maxTx).1.analysis_window_end.getD 0))

lemma analysis_buyer_totals (o : LedgerOracle) (mint : String) (minUsd : ℚ)
    (hours : Int) (maxTx : Nat) (w : String) :
    ∀ b ∈ (analyze_token_early_bidders o mint minUsd hours maxTx).1.early_bidders,
      b.wallet_address = w →
      ((analysisEvents o mint minUsd hours maxTx).filter (qualEvent minUsd w)) ≠ [] ∧
      b.total_usd = (((analysisEvents o mint minUsd hours maxTx).filter
        (qualEvent minUsd w)).map (fun e => e.2.1)).sum ∧
      b.transaction_count = ((analysisEvents o mint minUsd hours maxTx).filter
        (qualEvent minUsd w)).length := by
  intro b hb hbw
  have hre : (analyze_token_early_bidders o mint minUsd hours maxTx).1 =
      finishAnalysis mint (get_token_metadata o).1.1 (get_token_metadata o).1.2 minUsd hours
        (get_parsed_transactions_earliest o maxTx none).1.1
        (get_parsed_transactions_earliest o maxTx none).1.2 := rfl
  rw [hre] at hb
  rcases finish_bidders_shape mint (get_token_metadata o).1.1 (get_token_metadata o).1.2
    minUsd hours (get_parsed_transactions_earliest o maxTx none).1.1
    (get_parsed_transactions_earliest o maxTx none).1.2 with hnil | ⟨ftx, _, hbid, hwe⟩
  · rw [hnil] at hb
    simp at hb
  · rw [hbid, mem_sortBidders] at hb
    obtain ⟨a, ha, rfl⟩ := List.mem_map.mp hb
    have haw : a.wallet_address = w := hbw
    have hev : analysisEvents o mint minUsd hours maxTx =
        (get_parsed_transactions_earliest o maxTx none).1.1.filterMap
          (buyEventOf mint (ftx.timestamp.getD 0 + hours * 3600)) := by
      unfold analysisEvents
      rw [hre, hwe]
      simp
    have hcurve : is_wallet_on_curve w = true := by
      rw [← haw]
      exact fold_processTx_pred mint minUsd (ftx.timestamp.getD 0 + hours * 3600)
        (fun x => is_wallet_on_curve x.wallet_address = true)
        (fun a ts usd h => by simpa [updateBuyer_wallet] using h)
        (fun w ts usd hc _ => hc)
        (get_parsed_transactions_earliest o maxTx none).1.1 [] (by simp) a ha
    have hdist : WDistinct ((get_parsed_transactions_earliest o maxTx none).1.1.foldl
        (processTx mint minUsd (ftx.timestamp.getD 0 + hours * 3600)) []) :=
      wdistinct_fold mint minUsd (ftx.timestamp.getD 0 + hours * 3600)
        (get_parsed_transactions_earliest o maxTx none).1.1 [] List.Pairwise.nil
    have hfind : findBuyer ((get_parsed_transactions_earliest o maxTx none).1.1.foldl
        (processTx mint minUsd (ftx.timestamp.getD 0 + hours * 3600)) []) w = some a := by
      rw [← haw]
      exact findBuyer_of_mem _ hdist a ha
    rw [foldl_processTx_eq_events, fold_stepEvent_findBuyer minUsd w hcurve] at hfind
    have hfb0 : findBuyer [] w = none := rfl
    rw [hfb0] at hfind
    set evs := ((get_parsed_transactions_earliest o maxTx none).1.1.filterMap
      (buyEventOf mint (ftx.timestamp.getD 0 + hours * 3600))).filter
      (qualEvent minUsd w) with hevs
    cases hne : evs with
    | nil =>
      rw [hne] at hfind
      simp [buyerFromEvents] at hfind
    | cons e es =>
      obtain ⟨a', ha', haw', hat', hac'⟩ :=
        buyerFromEvents_none_spec w evs (by rw [hne]; simp)
      rw [ha'] at hfind
      have haa : a = a' := by
        exact (Option.some.injEq _ _).mp hfind.symm
      subst haa
      refine ⟨?_, ?_, ?_⟩
      · rw [hev, ← hevs, hne]
        simp
      · rw [hev, ← hevs]
        exact hat'
      · rw [hev, ← hevs]
        exact hac'

/-- C5: the minimum-spend threshold is applied per transaction, not to the
wallet's running total: a wallet appears in the buyers list only if it has
at least one single event meeting the threshold, every event counted into
its total and count itself meets the threshold, and a wallet all of whose
events are below the threshold never appears even if they sum above it. -/
theorem C5_per_transaction_threshold (o : LedgerOracle) (mint : String) (minUsd : ℚ)
    (hours : Int) (maxTx : Nat) (w : String) :
    ((∃ b ∈ (analyze_token_early_bidders o mint minUsd hours maxTx).1.early_bidders,
        b.wallet_address = w) →
      ∃ e ∈ analysisEvents o mint minUsd hours maxTx, e.1 = w ∧ minUsd ≤ e.2.1) ∧
    (∀ b ∈ (analyze_token_early_bidders o mint minUsd hours maxTx).1.early_bidders,
      b.wallet_address = w →
      b.total_usd = (((analysisEvents o mint minUsd hours maxTx).filter
        (qualEvent minUsd w)).map (fun e => e.2.1)).sum ∧
      b.transaction_count = ((analysisEvents o mint minUsd hours maxTx).filter
        (qualEvent minUsd w)).length) ∧
    ((∀ e ∈ analysisEvents o mint minUsd hours maxTx, e.1 = w → e.2.1 < minUsd) →
      ∀ b ∈ (analyze_token_early_bidders o mint minUsd hours maxTx).1.early_bidders,
        b.wallet_address ≠ w) := by
  have hqual : ∀ e, qualEvent minUsd w e = true → e.1 = w ∧ minUsd ≤ e.2.1 := by
    intro e he
    have := (Bool.and_eq_true _ _).mp he
    exact ⟨by simpa using this.1, by simpa using this.2⟩
  refine ⟨?_, ?_, ?_⟩
  · rintro ⟨b, hb, hbw⟩
    obtain ⟨hne, _, _⟩ := analysis_buyer_totals o mint minUsd hours maxTx w b hb hbw
    obtain ⟨e, he⟩ := List.exists_mem_of_ne_nil _ hne
    obtain ⟨hmem, hq⟩ := List.mem_filter.mp he
    exact ⟨e, hmem, hqual e hq⟩
  · intro b hb hbw
    exact (analysis_buyer_totals o mint minUsd hours maxTx w b hb hbw).2
  · intro hall b hb hbw
    obtain ⟨hne, _, _⟩ := analysis_buyer_totals o mint minUsd hours maxTx w b hb hbw
    obtain ⟨e, he⟩ := List.exists_mem_of_ne_nil _ hne
    obtain ⟨hmem, hq⟩ := List.mem_filter.mp he
    obtain ⟨he1, hle⟩ := hqual e hq
    exact absurd (hall e hmem he1) (not_lt.mpr hle)

/-- Witness for C5 at the spec's example stream (`thresholdOracle`, minimum
50 USD): wallet `buyerX` (one 60 USD event) appears with total 60 and count
1, while wallet `buyerY` (two 30 USD events summing to 60) never appears. -/
theorem C5_witness :
    (∃ e ∈ analysisEvents thresholdOracle "MINT" 50 10 500,
      e.1 = buyerX ∧ (50 : ℚ) ≤ e.2.1) ∧
    (({ wallet_address := buyerX, first_buy_time := 1000, total_usd := 60,
        transaction_count := 1, average_buy_usd := 60 } : BidderOut).total_usd =
      (((analysisEvents thresholdOracle "MINT" 50 10 500).filter
        (qualEvent 50 buyerX)).map (fun e => e.2.1)).sum ∧
     ({ wallet_address := buyerX, first_buy_time := 1000, total_usd := 60,
        transaction_count := 1, average_buy_usd := 60 } : BidderOut).transaction_count =
      ((analysisEvents thresholdOracle "MINT" 50 10 500).filter
        (qualEvent 50 buyerX)).length) ∧
    (∀ b ∈ (analyze_token_early_bidders thresholdOracle "MINT" 50 10 500).1.early_bidders,
      b.wallet_address ≠ buyerY) :=
  ⟨(C5_per_transaction_threshold thresholdOracle "MINT" 50 10 500 buyerX).1 (by decide),
   (C5_per_transaction_threshold thresholdOracle "MINT" 50 10 500 buyerX).2.1 _
     (by decide) (by decide),
   (C5_per_transaction_threshold thresholdOracle "MINT" 50 10 500 buyerY).2.2 (by decide)⟩

end Solscan
